import Mathlib

/-!
# SerialBufferHandler: a shallow embedding

The handler of `SerialBufferHandler.cpp` keeps a fixed byte array `_buffer`
with a read position `_recv_pos` and a fill mark `_recv_len`.  The embedding
below follows the C++ member functions one by one.

Conventions.

* `size_t` values are natural numbers; the word width `w` is a parameter and
  every `size_t` subtraction or addition that can wrap is taken modulo `2 ^ w`.
* `sizeof(_buffer)` is the configuration constant
  `MBED_CONF_SERIALBUFFERHANDLER_BUFFER_SIZE`; it is the length of the list
  `buffer`, so it is a parameter of every statement.
* An access outside `_buffer` is undefined behaviour in the source; the
  embedding stops there with `Fault.out_of_bounds`.
* The collaborators (clock, file handle, event queue) are not part of the
  repository.  Each value the code obtains from them is an explicit argument,
  so every theorem holds for all answers they may give.
* Times are signed 64 bit counts of milliseconds, as the clock of the target
  gives them.  They are integers here, and every sum or difference of two
  times is wrapped into the 64 bit range (`wrap64`), as the machine does.
-/

namespace SerialBuffer

/-! ## Data model -/

/-- One `uint8_t`. -/
abbrev Byte := Fin 256

/-- Ways in which a run of the embedding stops without a result. -/
inductive Fault where
  /-- an access outside `_buffer` (undefined behaviour in the source) -/
  | out_of_bounds
  /-- the list of collaborator answers ended before the loop did -/
  | starved
  deriving DecidableEq, Repr

/-- Answer of `FileHandle::read(dst, max)`: either the bytes it stored at
`dst`, their number being the return value, or a negative return value (the
handler only tests `len > 0`, so the error code itself is not kept). -/
inductive ReadResult where
  | data (bytes : List Byte)
  | fail
  deriving DecidableEq, Repr

/-- What the collaborators answer inside one `lock()` ... `unlock()` section. -/
structure Guard where
  /-- `Kernel::Clock::now()` read by `lock()` -/
  now : Int
  /-- `_fileHandle->readable()` read by `unlock()` -/
  readable : Bool
  /-- id returned by `_queue.call` in `unlock()`, used when `readable` -/
  token : Int
  deriving DecidableEq, Repr

/-- What the collaborators answer during one call of `fill_buffer`. -/
structure FillIn where
  /-- `Kernel::Clock::now()` read by `poll_timeout` -/
  now : Int
  /-- return value of `poll` -/
  count : Int
  /-- `fhs.revents & POLLIN` is non-zero -/
  pollin : Bool
  /-- answer of `_fileHandle->read` -/
  rd : ReadResult
  /-- answers for the guarded section around the read -/
  guard : Guard
  deriving DecidableEq, Repr

/-- The member variables of `SerialBufferHandler`, followed by three ghost
fields that record what the code did to its collaborators. -/
structure Handler where
  /-- `_buffer`; its length is `sizeof(_buffer)` -/
  buffer : List Byte
  /-- `_recv_pos` -/
  recv_pos : Nat
  /-- `_recv_len` -/
  recv_len : Nat
  /-- `_event_id` -/
  event_id : Int
  /-- `_timeout` in milliseconds -/
  timeout : Int
  /-- `_start_time` in milliseconds -/
  start_time : Int
  /-- `_cb` is non-empty -/
  cb : Bool
  /-- ghost: number of `read` callbacks sitting in `_queue` -/
  queued : Nat
  /-- ghost: timeouts handed to `poll`, most recent first -/
  polled : List Int
  /-- ghost: number of calls of `_cb` -/
  cb_calls : Nat
  deriving DecidableEq, Repr

/-! ## Machine arithmetic and memory -/

/-- Value of `SIZE_MAX` for a `size_t` of `w` bits. -/
def SIZE_MAX (w : Nat) : Nat := 2 ^ w - 1

/-- Subtraction of two `size_t` values, wrapping modulo `2 ^ w`. -/
def size_sub (w a b : Nat) : Nat := (a % 2 ^ w + (2 ^ w - b % 2 ^ w)) % 2 ^ w

/-- Addition of two `size_t` values, wrapping modulo `2 ^ w`. -/
def size_add (w a b : Nat) : Nat := (a + b) % 2 ^ w

/-- Read `n` bytes at `_buffer + off`. -/
def mem_read (buf : List Byte) (off n : Nat) : Except Fault (List Byte) :=
  if off + n ≤ buf.length then .ok ((buf.drop off).take n) else .error .out_of_bounds

/-- Store `bytes` at `_buffer + off`. -/
def mem_write (buf : List Byte) (off : Nat) (bytes : List Byte) : Except Fault (List Byte) :=
  if off + bytes.length ≤ buf.length then
    .ok (buf.take off ++ bytes ++ buf.drop (off + bytes.length))
  else .error .out_of_bounds

/-! ## The member functions -/

/-- The state after construction: a zeroed buffer of `cap` bytes, both
offsets zero, the default timeout of 10 ms, `_start_time` set from the clock.
The constructor's calls `set_blocking` and `sigio` configure the file handle
and leave the members as they are. -/
def init (cap : Nat) (now : Int) : Handler :=
  { buffer := List.replicate cap 0, recv_pos := 0, recv_len := 0, event_id := 0,
    timeout := 10, start_time := now, cb := false, queued := 0, polled := [], cb_calls := 0 }

/-- Embedding of `attach`; `has_cb` tells whether the callback is non-empty. -/
def attach (s : Handler) (has_cb : Bool) (timeout : Int) : Handler :=
  { s with cb := has_cb, timeout := timeout }

/-- Embedding of `reset_buffer`. -/
def reset_buffer (s : Handler) : Handler :=
  { s with recv_pos := 0, recv_len := 0 }

/-- Embedding of `_event_id = _queue.call(read)`: the queue returns `token`,
which is zero exactly when nothing could be enqueued. -/
def queue_call (s : Handler) (token : Int) : Handler :=
  { s with event_id := token, queued := if token = 0 then s.queued else s.queued + 1 }

/-- Embedding of `lock`. -/
def lock (s : Handler) (now : Int) : Handler :=
  { s with start_time := now }

/-- Embedding of `unlock`. -/
def unlock (s : Handler) (readable : Bool) (token : Int) : Handler :=
  if readable then queue_call s token else s

/-- Embedding of `available_bytes`. -/
def available_bytes (w : Nat) (s : Handler) : Nat :=
  size_sub w s.recv_len s.recv_pos

/-- Embedding of `check_byte`. -/
def check_byte (w : Nat) (s : Handler) (index : Nat) : Except Fault Byte :=
  match s.buffer[size_add w index s.recv_pos]? with
  | some b => .ok b
  | none => .error .out_of_bounds

/-- Embedding of `rewind_buffer`.  The subtraction is guarded by
`_recv_len >= _recv_pos`, so it does not wrap. -/
def rewind_buffer (s : Handler) (g : Guard) : Except Fault Handler := do
  let s1 := lock s g.now
  let s2 ←
    if 0 < s1.recv_pos ∧ s1.recv_pos ≤ s1.recv_len then do
      let len := s1.recv_len - s1.recv_pos
      let moved ← mem_read s1.buffer s1.recv_pos len
      let buf ← mem_write s1.buffer 0 moved
      pure { s1 with buffer := buf, recv_len := len, recv_pos := 0 }
    else pure s1
  pure (unlock s2 g.readable g.token)

/-- Embedding of `read_bytes`.  The result holds the new state, the bytes
stored at `buf` and the return value. -/
def read_bytes (w : Nat) (s : Handler) (len : Nat) (g1 g2 : Guard) :
    Except Fault (Handler × List Byte × Nat) :=
  let max := size_sub w s.recv_len s.recv_pos
  let to_read := if len > max then max else len
  if len = 0 ∨ to_read = 0 then pure (s, [], 0)
  else do
    let s1 := lock s g1.now
    let out ← mem_read s1.buffer s1.recv_pos to_read
    let s2 := unlock s1 g1.readable g1.token
    let s3 := { s2 with recv_pos := to_read }
    let s4 ← rewind_buffer s3 g2
    pure (s4, out, to_read)

/-- The loop of `rewind_until(uint8_t)`: starting at `i`, stop at the first
index below `len` that holds `until`, or at `len`.  `fuel` bounds the number
of iterations. -/
def scan_byte (buf : List Byte) (until_byte : Byte) (len : Nat) : Nat → Nat → Except Fault Nat
  | 0, i => .ok i
  | fuel + 1, i =>
    if i < len then
      match buf[i]? with
      | none => .error .out_of_bounds
      | some b => if b = until_byte then .ok i else scan_byte buf until_byte len fuel (i + 1)
    else .ok i

/-- Embedding of `rewind_until(uint8_t)`.  The loop runs `_recv_len - _recv_pos`
times at most. -/
def rewind_until (s : Handler) (until_byte : Byte) (g : Guard) : Except Fault (Handler × Nat) := do
  let i ← scan_byte s.buffer until_byte s.recv_len (s.recv_len - s.recv_pos) s.recv_pos
  let s1 := { s with recv_pos := i }
  let s2 ← rewind_buffer s1 g
  pure (s2, s2.recv_len)

/-- The loop of `rewind_until(const uint8_t *, size_t)`: starting at `i`, the
first index below `bound` at which `memcmp` finds the pattern, or `SIZE_MAX`. -/
def scan_seq (w : Nat) (buf find : List Byte) (bound : Nat) : Nat → Nat → Except Fault Nat
  | 0, _ => .ok (SIZE_MAX w)
  | fuel + 1, i =>
    if i < bound then do
      let window ← mem_read buf i find.length
      if window = find then .ok i else scan_seq w buf find bound fuel (i + 1)
    else .ok (SIZE_MAX w)

/-- The value assigned to `_recv_pos` by `rewind_until(const uint8_t *, size_t)`.
The pattern is the list of the `len` bytes at `find`. -/
def seq_position (w : Nat) (s : Handler) (find : List Byte) : Except Fault Nat := do
  let bound := size_sub w s.buffer.length find.length
  let position ← scan_seq w s.buffer find bound bound 0
  pure (if position = SIZE_MAX w then s.recv_len else position)

/-- Embedding of `rewind_until(const uint8_t *, size_t)`. -/
def rewind_until_seq (w : Nat) (s : Handler) (find : List Byte) (g : Guard) :
    Except Fault (Handler × Nat) := do
  let position ← seq_position w s find
  let s1 := { s with recv_pos := position }
  let s2 ← rewind_buffer s1 g
  pure (s2, s2.recv_len)

/-- Value of `duration<int, std::milli>::max()`, for a 32 bit `int`. -/
def INT_MAX : Int := 2 ^ 31 - 1

/-- The value a signed 64 bit integer holds after a sum or difference whose
exact result is `x`: two's complement wrap-around. -/
def wrap64 (x : Int) : Int := (x + 2 ^ 63) % 2 ^ 64 - 2 ^ 63

/-- The value a signed 32 bit `int` holds after the conversion of the 64 bit
count `x`. -/
def wrap32 (x : Int) : Int := (x + 2 ^ 31) % 2 ^ 32 - 2 ^ 31

/-- The value fits a signed 64 bit count (`Kernel::Clock` times and
`milliseconds` are such counts). -/
def in_int64 (x : Int) : Prop := -2 ^ 63 ≤ x ∧ x ≤ 2 ^ 63 - 1

instance (x : Int) : Decidable (in_int64 x) :=
  inferInstanceAs (Decidable (_ ∧ _))

/-- Embedding of `poll_timeout`; `now` is the clock reading.  The time point
`_start_time + _timeout` and the duration `_start_time + _timeout - now` are
64 bit counts; the result is a `duration<int, std::milli>`, so the duration is
converted to `int` where it is assigned. -/
def poll_timeout (s : Handler) (wait_for_timeout : Bool) (now : Int) : Int :=
  if wait_for_timeout then
    if now ≥ wrap64 (s.start_time + s.timeout) then 0
    else if wrap64 (wrap64 (s.start_time + s.timeout) - now) > INT_MAX then INT_MAX
    else wrap32 (wrap64 (wrap64 (s.start_time + s.timeout) - now))
  else 0

/-- Number of bytes `fill_buffer` asks the file handle for, in a state that
is past the overflow check. -/
def fill_request (w : Nat) (s : Handler) : Nat :=
  size_sub w s.buffer.length s.recv_len

/-- Embedding of `fill_buffer`.  The diagnostic `printf` is left out. -/
def fill_buffer (w : Nat) (s : Handler) (wait_for_timeout : Bool) (e : FillIn) :
    Except Fault (Handler × Bool) :=
  let s0 := if s.buffer.length = s.recv_len then reset_buffer s else s
  let s1 := { s0 with polled := poll_timeout s0 wait_for_timeout e.now :: s0.polled }
  if e.count > 0 ∧ e.pollin = true then
    let s2 := lock s1 e.guard.now
    match e.rd with
    | .data bytes => do
      let buf ← mem_write s2.buffer s2.recv_len bytes
      let s3 := unlock { s2 with buffer := buf } e.guard.readable e.guard.token
      if bytes.length > 0 then
        pure ({ s3 with recv_len := size_add w s3.recv_len bytes.length }, true)
      else pure (s3, false)
    | .fail => pure (unlock s2 e.guard.readable e.guard.token, false)
  else pure (s1, false)

/-- The `while` loop of `flush`; each element of the script answers one call
of `fill_buffer`. -/
def flush_loop (w : Nat) : Handler → List FillIn → Except Fault Handler
  | _, [] => .error .starved
  | s, e :: es => do
    let r ← fill_buffer w s false e
    if r.2 then flush_loop w (reset_buffer r.1) es else pure r.1

/-- Embedding of `flush`. -/
def flush (w : Nat) (s : Handler) (script : List FillIn) : Except Fault Handler :=
  flush_loop w (reset_buffer s) script

/-- Embedding of `event`. -/
def event (s : Handler) (token : Int) : Handler :=
  if s.event_id = 0 then queue_call s token else s

/-- The bytes a fill attempt gets from the file handle. -/
def delivered (e : FillIn) : List Byte :=
  match e.rd with
  | .data bytes => bytes
  | .fail => []

/-- A fill attempt whose answers make `fill_buffer` append data: the poll
reports `POLLIN` and the read returns at least one byte. -/
def yields (e : FillIn) : Bool :=
  decide (e.count > 0) && e.pollin && !(delivered e).isEmpty

/-- A run of `fill_buffer` calls, one per list element with its
`wait_for_timeout` flag; the boolean tells whether every call returned true. -/
def fill_all (w : Nat) : Handler → List (Bool × FillIn) → Except Fault (Handler × Bool)
  | s, [] => pure (s, true)
  | s, x :: xs => do
    let r ← fill_buffer w s x.1 x.2
    let r2 ← fill_all w r.1 xs
    pure (r2.1, r.2 && r2.2)

/-- The unread bytes `_buffer[_recv_pos .. _recv_len)`. -/
def unread (s : Handler) : List Byte :=
  (s.buffer.drop s.recv_pos).take (s.recv_len - s.recv_pos)

/-- The calls a consumer or the refill driver can make on the store. -/
inductive Op where
  | fill_once (wait_for_timeout : Bool) (e : FillIn)
  | read_bytes (len : Nat) (g1 g2 : Guard)
  | seek_to_byte (until_byte : Byte) (g : Guard)
  | seek_to_sequence (find : List Byte) (g : Guard)
  | compact (g : Guard)
  | reset
  | flush (script : List FillIn)
  deriving Repr

/-- State after one call. -/
def step (w : Nat) (s : Handler) : Op → Except Fault Handler
  | .fill_once wait e => (fill_buffer w s wait e).map (·.1)
  | .read_bytes len g1 g2 => (read_bytes w s len g1 g2).map (·.1)
  | .seek_to_byte b g => (rewind_until s b g).map (·.1)
  | .seek_to_sequence find g => (rewind_until_seq w s find g).map (·.1)
  | .compact g => rewind_buffer s g
  | .reset => pure (reset_buffer s)
  | .flush script => flush w s script

/-- State after a sequence of calls. -/
def run (w : Nat) : Handler → List Op → Except Fault Handler
  | s, [] => pure s
  | s, op :: ops => do
    let s1 ← step w s op
    run w s1 ops

/-- The file handle keeps its contract in a call of `fill_buffer` from `s`:
it stores at most the number of bytes it is asked for. -/
def source_ok (w : Nat) (s : Handler) (e : FillIn) : Prop :=
  (delivered e).length ≤
    fill_request w (if s.buffer.length = s.recv_len then reset_buffer s else s)

instance (w : Nat) (s : Handler) (e : FillIn) : Decidable (source_ok w s e) :=
  inferInstanceAs (Decidable (_ ≤ _))

/-- The bytes delivered by a run of fill attempts, in source order. -/
def appended : List (Bool × FillIn) → List Byte
  | [] => []
  | x :: xs => delivered x.2 ++ appended xs

/-- The pattern `find` lies in `buf` at offset `i`, inside `buf`. -/
def occurs_at (buf find : List Byte) (i : Nat) : Prop :=
  i + find.length ≤ buf.length ∧ (buf.drop i).take find.length = find

instance (buf find : List Byte) (i : Nat) : Decidable (occurs_at buf find i) :=
  inferInstanceAs (Decidable (_ ∧ _))

/-- The staged bytes `_buffer[0 .. _recv_len)`. -/
def staged (s : Handler) : List Byte := s.buffer.take s.recv_len

/-! ## Concrete answers and states used in the examples -/

/-- A guarded section in which the clock reads 0 and the file handle is not
readable. -/
def quiet : Guard := { now := 0, readable := false, token := 0 }

/-- A fill attempt in which the poll reports `POLLIN` and the read returns
`bytes`. -/
def arrives (bytes : List Byte) : FillIn :=
  { now := 0, count := 1, pollin := true, rd := .data bytes, guard := quiet }

/-- A fill attempt in which the poll times out. -/
def silence : FillIn :=
  { now := 0, count := 0, pollin := false, rd := .data [], guard := quiet }

/-- A store of six bytes with `[A, B, C, D]` staged and the cursor at 0. -/
def staged_ABCD : Handler :=
  { init 6 0 with buffer := [65, 66, 67, 68, 0, 0], recv_len := 4 }

/-- A store of two bytes that is full: `[1, 2]` staged. -/
def full_two : Handler :=
  { init 2 0 with buffer := [1, 2], recv_len := 2 }

/-- Three calls on a fresh store: byte `A` arrives, it is read, and the
pattern `[0]` is sought. -/
def consume_then_seek : List Op :=
  [.fill_once true (arrives [65]), .read_bytes 1 quiet quiet, .seek_to_sequence [0] quiet]

/-- The state after byte `A` has arrived in a fresh store of four bytes and
has been read: nothing is staged, the byte is still in `_buffer[0]`. -/
def consumed_A : Handler :=
  { init 4 0 with buffer := [65, 0, 0, 0], polled := [10] }

/-- The state after `consume_then_seek` on a fresh store of four bytes. -/
def cursor_past_end : Handler :=
  { consumed_A with recv_pos := 1 }

/-- The state reached from `cursor_past_end` when `[P, Q, R]` arrives. -/
def cursor_inside : Handler :=
  { cursor_past_end with buffer := [80, 81, 82, 0], recv_len := 3, polled := [10, 10] }

/-- A store of eight bytes: six bytes arrive and are read, then `[A, B, C]`
arrives.  `[A, B, C]` is staged and `[X, Y]` is left over at offset 4. -/
def leftover_ops : List Op :=
  [.fill_once true (arrives [1, 2, 3, 4, 88, 89]), .read_bytes 6 quiet quiet,
    .fill_once true (arrives [65, 66, 67])]

/-- The state after `leftover_ops` on a fresh store of eight bytes. -/
def staged_ABC_leftover : Handler :=
  { init 8 0 with buffer := [65, 66, 67, 4, 88, 89, 0, 0], recv_len := 3, polled := [10, 10] }

/-- A store of four bytes filled by one delivery that ends in `[A, B]`. -/
def ends_in_AB : Handler :=
  { init 4 0 with buffer := [7, 7, 65, 66], recv_len := 4, polled := [10] }

/-! ## Further notions and examples -/

/-- A run of consecutive calls of `event`, one per token the queue would
return, with no other call in between. -/
def events (s : Handler) (tokens : List Int) : Handler :=
  tokens.foldl event s

/-- The poll budget in the words of the specification: 0 when the caller does
not wait; otherwise, with `elapsed = now - last_activity_time`, 0 when
`elapsed ≥ deadline_duration`, and else `deadline_duration - elapsed` cut at
the largest value of the poll type. -/
def poll_budget_spec (now last_activity_time deadline_duration : Int)
    (wait_for_timeout : Bool) : Int :=
  if wait_for_timeout = false then 0
  else
    let elapsed := now - last_activity_time
    if elapsed ≥ deadline_duration then 0
    else min (deadline_duration - elapsed) INT_MAX

/-- A guarded section in which the clock reads 7, the file handle is readable
and the queue returns the id 2. -/
def busy : Guard := { now := 7, readable := true, token := 2 }

/-- A store of six bytes in which `[A, B]` has been consumed but not yet
compacted: `_recv_pos = 2`, `_recv_len = 4`. -/
def uncompacted : Handler :=
  { staged_ABCD with recv_pos := 2 }

/-- The variant of `read_bytes` in the words of the specification: the read
cursor is advanced by the copied count (`_recv_pos += to_read`) where the
source assigns it (`_recv_pos = to_read`).  Everything else is as in
`read_bytes`. -/
def read_bytes_advancing (w : Nat) (s : Handler) (len : Nat) (g1 g2 : Guard) :
    Except Fault (Handler × List Byte × Nat) :=
  let max := size_sub w s.recv_len s.recv_pos
  let to_read := if len > max then max else len
  if len = 0 ∨ to_read = 0 then pure (s, [], 0)
  else do
    let s1 := lock s g1.now
    let out ← mem_read s1.buffer s1.recv_pos to_read
    let s2 := unlock s1 g1.readable g1.token
    let s3 := { s2 with recv_pos := size_add w s2.recv_pos to_read }
    let s4 ← rewind_buffer s3 g2
    pure (s4, out, to_read)

/-- The call is not `rewind_until(const uint8_t *, size_t)`. -/
def seek_free : Op → Bool
  | .seek_to_sequence _ _ => false
  | _ => true

/-- Six calls without `rewind_until(const uint8_t *, size_t)`: `[A, B, C]`
arrives, `B` is sought, one byte is read, the store is compacted, flushed
(the poll times out at once) and reset. -/
def seek_free_ops : List Op :=
  [.fill_once true (arrives [65, 66, 67]), .seek_to_byte 66 busy, .read_bytes 1 quiet busy,
    .compact quiet, .flush [silence], .reset]

/-- A fresh store constructed at clock 5 to which the timeout
`milliseconds::max()`, the largest 64 bit count, is attached. -/
def long_wait : Handler := attach (init 2 5) false 9223372036854775807

/-! ## Basic facts -/

theorem size_sub_of_le {w a b : Nat} (hba : b ≤ a) (ha : a < 2 ^ w) :
    size_sub w a b = a - b := by
  unfold size_sub
  have hb : b < 2 ^ w := lt_of_le_of_lt hba ha
  rw [Nat.mod_eq_of_lt ha, Nat.mod_eq_of_lt hb]
  have h : a + (2 ^ w - b) = (a - b) + 2 ^ w := by omega
  rw [h, Nat.add_mod_right, Nat.mod_eq_of_lt]
  omega

theorem size_sub_of_lt {w a b : Nat} (hab : a < b) (hb : b < 2 ^ w) :
    size_sub w a b = a + 2 ^ w - b := by
  unfold size_sub
  have ha : a < 2 ^ w := lt_trans hab hb
  rw [Nat.mod_eq_of_lt ha, Nat.mod_eq_of_lt hb, Nat.mod_eq_of_lt]
  · omega
  · omega

theorem size_add_of_lt {w a b : Nat} (h : a + b < 2 ^ w) : size_add w a b = a + b :=
  Nat.mod_eq_of_lt h

theorem mem_read_ok {buf : List Byte} {off n : Nat} (h : off + n ≤ buf.length) :
    mem_read buf off n = .ok ((buf.drop off).take n) := by
  simp [mem_read, h]

theorem mem_write_ok {buf bytes : List Byte} {off : Nat} (h : off + bytes.length ≤ buf.length) :
    mem_write buf off bytes = .ok (buf.take off ++ bytes ++ buf.drop (off + bytes.length)) := by
  simp [mem_write, h]

@[simp] theorem lock_buffer (s : Handler) (t : Int) : (lock s t).buffer = s.buffer := rfl
@[simp] theorem lock_recv_pos (s : Handler) (t : Int) : (lock s t).recv_pos = s.recv_pos := rfl
@[simp] theorem lock_recv_len (s : Handler) (t : Int) : (lock s t).recv_len = s.recv_len := rfl
@[simp] theorem lock_polled (s : Handler) (t : Int) : (lock s t).polled = s.polled := rfl

@[simp] theorem unlock_buffer (s : Handler) (r : Bool) (t : Int) :
    (unlock s r t).buffer = s.buffer := by
  cases r <;> rfl
@[simp] theorem unlock_recv_pos (s : Handler) (r : Bool) (t : Int) :
    (unlock s r t).recv_pos = s.recv_pos := by
  cases r <;> rfl
@[simp] theorem unlock_recv_len (s : Handler) (r : Bool) (t : Int) :
    (unlock s r t).recv_len = s.recv_len := by
  cases r <;> rfl
@[simp] theorem unlock_polled (s : Handler) (r : Bool) (t : Int) :
    (unlock s r t).polled = s.polled := by
  cases r <;> rfl

/-- What `rewind_buffer` computes when `_recv_len` is inside the buffer. -/
theorem rewind_buffer_eq (s : Handler) (g : Guard) (hlc : s.recv_len ≤ s.buffer.length) :
    rewind_buffer s g = .ok (unlock
      (if 0 < s.recv_pos ∧ s.recv_pos ≤ s.recv_len then
        { lock s g.now with
          buffer := unread s ++ s.buffer.drop (s.recv_len - s.recv_pos),
          recv_len := s.recv_len - s.recv_pos, recv_pos := 0 }
      else lock s g.now) g.readable g.token) := by
  unfold rewind_buffer
  by_cases h : 0 < s.recv_pos ∧ s.recv_pos ≤ s.recv_len
  · have h1 : s.recv_pos + (s.recv_len - s.recv_pos) ≤ s.buffer.length := by omega
    have hlen : (List.take (s.recv_len - s.recv_pos) (List.drop s.recv_pos s.buffer)).length
        = s.recv_len - s.recv_pos := by
      rw [List.length_take, List.length_drop]; omega
    have h2 : 0 + (List.take (s.recv_len - s.recv_pos) (List.drop s.recv_pos s.buffer)).length
        ≤ s.buffer.length := by
      rw [hlen]; omega
    simp [h, mem_read_ok h1, mem_write_ok h2, unread, hlen, bind, Except.bind, pure,
      Except.pure]
  · simp [h, bind, Except.bind, pure, Except.pure]

/-- Under `_recv_pos ≤ _recv_len ≤ sizeof(_buffer)` the compaction returns,
zeroes the read position, and keeps the unread bytes. -/
theorem rewind_buffer_spec (s : Handler) (g : Guard)
    (hpl : s.recv_pos ≤ s.recv_len) (hlc : s.recv_len ≤ s.buffer.length) :
    ∃ s1, rewind_buffer s g = .ok s1 ∧ s1.recv_pos = 0 ∧
      s1.recv_len = s.recv_len - s.recv_pos ∧ s1.buffer.length = s.buffer.length ∧
      s1.buffer.take (s.recv_len - s.recv_pos) = unread s ∧ s1.polled = s.polled := by
  refine ⟨_, rewind_buffer_eq s g hlc, ?_⟩
  have hul : (unread s).length = s.recv_len - s.recv_pos := by
    unfold unread; rw [List.length_take, List.length_drop]; omega
  by_cases h : 0 < s.recv_pos ∧ s.recv_pos ≤ s.recv_len
  · rw [if_pos h]
    refine ⟨by simp, by simp, ?_, ?_, by simp⟩
    · simp only [unlock_buffer, List.length_append, hul, List.length_drop]; omega
    · simp only [unlock_buffer]
      rw [List.take_append_of_le_length (by omega), List.take_of_length_le (by omega)]
  · have hp : s.recv_pos = 0 := by omega
    rw [if_neg h]
    refine ⟨by simp [hp], by simp [hp], by simp, ?_, by simp⟩
    simp [unread, hp]

theorem unread_length (s : Handler) (hpl : s.recv_pos ≤ s.recv_len)
    (hlc : s.recv_len ≤ s.buffer.length) : (unread s).length = s.recv_len - s.recv_pos := by
  unfold unread; rw [List.length_take, List.length_drop]; omega

theorem unread_of_pos_zero (s : Handler) (hp : s.recv_pos = 0) :
    unread s = s.buffer.take s.recv_len := by
  simp [unread, hp]

/-- The loop of `rewind_until(uint8_t)` stops at the first occurrence of the
byte in `_buffer[i .. len)`, or at `len`. -/
theorem scan_byte_spec (buf : List Byte) (t : Byte) (len : Nat) (hlc : len ≤ buf.length) :
    ∀ (fuel i : Nat), i ≤ len → len - i ≤ fuel →
      scan_byte buf t len fuel i = .ok (i + List.indexOf t ((buf.drop i).take (len - i))) := by
  intro fuel
  induction fuel with
  | zero =>
    intro i hi hf
    have h0 : len - i = 0 := by omega
    simp [scan_byte, h0]
  | succ fuel ih =>
    intro i hi hf
    unfold scan_byte
    by_cases hlt : i < len
    · have hib : i < buf.length := by omega
      have hsplit : (buf.drop i).take (len - i)
          = buf[i] :: (buf.drop (i + 1)).take (len - (i + 1)) := by
        rw [List.drop_eq_getElem_cons hib]
        have : len - i = (len - (i + 1)) + 1 := by omega
        rw [this, List.take_succ_cons]
      rw [if_pos hlt, List.getElem?_eq_getElem hib, hsplit]
      by_cases hb : buf[i] = t
      · simp [hb]
      · simp only [hb, if_false]
        rw [ih (i + 1) (by omega) (by omega), List.indexOf_cons_ne _ hb, Nat.succ_eq_add_one,
          Nat.add_assoc, Nat.add_comm 1]
    · have h0 : len - i = 0 := by omega
      simp [hlt, h0]

theorem indexOf_of_first (t : Byte) : ∀ (l : List Byte) (j : Nat),
    l[j]? = some t → (∀ k, k < j → l[k]? ≠ some t) → List.indexOf t l = j := by
  intro l
  induction l with
  | nil => intro j h; simp at h
  | cons a l ih =>
    intro j h hfirst
    cases j with
    | zero =>
      simp at h
      rw [h, List.indexOf_cons_self]
    | succ j =>
      have ha : a ≠ t := by
        intro hat
        exact hfirst 0 (by omega) (by simp [hat])
      rw [List.indexOf_cons_ne _ ha]
      congr 1
      apply ih j
      · simpa using h
      · intro k hk
        have := hfirst (k + 1) (by omega)
        simpa using this

/-- What `rewind_until(uint8_t)` does on a state with
`_recv_pos ≤ _recv_len ≤ sizeof(_buffer)`: it drops the unread bytes in front
of the first occurrence of the byte (all of them when there is none). -/
theorem rewind_until_spec (s : Handler) (t : Byte) (g : Guard)
    (hpl : s.recv_pos ≤ s.recv_len) (hlc : s.recv_len ≤ s.buffer.length) :
    ∃ s1, rewind_until s t g = .ok (s1, s1.recv_len) ∧ s1.recv_pos = 0 ∧
      s1.recv_len = (unread s).length - List.indexOf t (unread s) ∧
      s1.buffer.length = s.buffer.length ∧
      unread s1 = (unread s).drop (List.indexOf t (unread s)) := by
  have hscan := scan_byte_spec s.buffer t s.recv_len hlc (s.recv_len - s.recv_pos) s.recv_pos
    hpl (le_refl _)
  have hul := unread_length s hpl hlc
  have hd : List.indexOf t (unread s) ≤ s.recv_len - s.recv_pos := by
    rw [← hul]; exact List.indexOf_le_length
  let s' : Handler := { s with recv_pos := s.recv_pos + List.indexOf t (unread s) }
  obtain ⟨s1, hrw, hp1, hl1, hb1, htake, _⟩ :=
    rewind_buffer_spec s' g (by show s.recv_pos + _ ≤ s.recv_len; omega) hlc
  refine ⟨s1, ?_, hp1, ?_, hb1, ?_⟩
  · unfold rewind_until
    rw [hscan]
    show (rewind_buffer s' g >>= fun s2 => pure (s2, s2.recv_len)) = _
    rw [hrw]; rfl
  · rw [hl1, hul]; show s.recv_len - (s.recv_pos + _) = _; omega
  · rw [unread_of_pos_zero s1 hp1, hl1, htake]
    show List.take (s.recv_len - (s.recv_pos + List.indexOf t (unread s)))
      (List.drop (s.recv_pos + List.indexOf t (unread s)) s.buffer) = _
    generalize List.indexOf t (unread s) = d
    unfold unread
    rw [List.drop_take, List.drop_drop, Nat.sub_add_eq]

/-- What `read_bytes` does on a state with unread bytes and a request of at
least one byte: it returns `k = min len (_recv_len - _recv_pos)`, stores the
first `k` unread bytes, assigns `k` to `_recv_pos` and compacts. -/
theorem read_bytes_spec (w : Nat) (s : Handler) (n : Nat) (g1 g2 : Guard)
    (hpl : s.recv_pos < s.recv_len) (hlc : s.recv_len ≤ s.buffer.length)
    (hw : s.buffer.length < 2 ^ w) (hn : 0 < n) :
    ∃ s1, read_bytes w s n g1 g2 =
        .ok (s1, (unread s).take (min n (s.recv_len - s.recv_pos)),
          min n (s.recv_len - s.recv_pos)) ∧
      s1.recv_pos = 0 ∧ s1.recv_len = s.recv_len - min n (s.recv_len - s.recv_pos) ∧
      s1.buffer.length = s.buffer.length ∧
      unread s1 = (s.buffer.drop (min n (s.recv_len - s.recv_pos))).take
        (s.recv_len - min n (s.recv_len - s.recv_pos)) := by
  have hmax : size_sub w s.recv_len s.recv_pos = s.recv_len - s.recv_pos :=
    size_sub_of_le (le_of_lt hpl) (by omega)
  have hk : (if n > s.recv_len - s.recv_pos then s.recv_len - s.recv_pos else n)
      = min n (s.recv_len - s.recv_pos) := by
    split <;> omega
  generalize hkdef : min n (s.recv_len - s.recv_pos) = k at hk
  have hk1 : 0 < k := by omega
  have hk2 : k ≤ s.recv_len - s.recv_pos := by omega
  let s3 : Handler :=
    { unlock (lock s g1.now) g1.readable g1.token with recv_pos := k }
  have h3p : s3.recv_pos = k := rfl
  have h3l : s3.recv_len = s.recv_len := by simp [s3]
  have h3b : s3.buffer = s.buffer := by simp [s3]
  obtain ⟨s1, hrw, hp1, hl1, hb1, htake, _⟩ :=
    rewind_buffer_spec s3 g2 (by rw [h3p, h3l]; omega) (by rw [h3l, h3b]; exact hlc)
  refine ⟨s1, ?_, hp1, ?_, ?_, ?_⟩
  · unfold read_bytes
    simp only [hmax, hk]
    rw [if_neg (by omega)]
    simp only [lock_buffer, lock_recv_pos]
    rw [mem_read_ok (by omega)]
    show (rewind_buffer s3 g2 >>= fun s4 => pure (s4, _, k)) = _
    rw [hrw]
    show Except.ok (s1, _, k) = _
    congr 3
    unfold unread
    rw [List.take_take, min_eq_left hk2]
  · rw [hl1, h3l, h3p]
  · rw [hb1, h3b]
  · rw [unread_of_pos_zero s1 hp1, hl1, htake]
    unfold unread
    rw [h3p, h3l, h3b]

/-- A fill attempt that finds room and gets at least one byte appends the
bytes at `_recv_len` and returns true. -/
theorem fill_buffer_append (w : Nat) (s : Handler) (wait : Bool) (e : FillIn)
    (bytes : List Byte) (hc : e.count > 0) (hp : e.pollin = true) (hrd : e.rd = .data bytes)
    (hb : bytes ≠ []) (hfit : s.recv_len + bytes.length ≤ s.buffer.length)
    (hw : s.buffer.length < 2 ^ w) :
    ∃ s1, fill_buffer w s wait e = .ok (s1, true) ∧ s1.recv_pos = s.recv_pos ∧
      s1.recv_len = s.recv_len + bytes.length ∧
      s1.buffer = s.buffer.take s.recv_len ++ bytes ++ s.buffer.drop (s.recv_len + bytes.length) ∧
      s1.polled = poll_timeout s wait e.now :: s.polled := by
  have hpos : 0 < bytes.length := List.length_pos.mpr hb
  have hne : s.buffer.length ≠ s.recv_len := by omega
  unfold fill_buffer
  simp only [hne, if_false, hc, hp, and_self, if_true, hrd, lock_buffer, lock_recv_len]
  rw [mem_write_ok hfit]
  simp only [bind, Except.bind, hpos, gt_iff_lt, if_true, pure, Except.pure, unlock_recv_len,
    lock_recv_len]
  refine ⟨_, rfl, by simp, ?_, by simp, by simp⟩
  simp only [unlock_recv_len, lock_recv_len]
  exact size_add_of_lt (by omega)

theorem appended_cons (x : Bool × FillIn) (xs : List (Bool × FillIn)) :
    appended (x :: xs) = delivered x.2 ++ appended xs := rfl

/-- A run of fill attempts that all get data and fit into the free part of
the buffer appends the delivered bytes in order. -/
theorem fill_all_append (w : Nat) : ∀ (xs : List (Bool × FillIn)) (s : Handler),
    (∀ x ∈ xs, x.2.count > 0 ∧ x.2.pollin = true ∧ ∃ b, x.2.rd = .data b ∧ b ≠ []) →
    s.recv_len + (appended xs).length ≤ s.buffer.length → s.buffer.length < 2 ^ w →
    ∃ s1, fill_all w s xs = .ok (s1, true) ∧ s1.recv_pos = s.recv_pos ∧
      s1.recv_len = s.recv_len + (appended xs).length ∧
      s1.buffer.length = s.buffer.length ∧
      s1.buffer.take s1.recv_len = s.buffer.take s.recv_len ++ appended xs := by
  intro xs
  induction xs with
  | nil =>
    intro s _ _ _
    exact ⟨s, rfl, rfl, by simp [appended], rfl, by simp [appended]⟩
  | cons x xs ih =>
    intro s hgood hfit hw
    obtain ⟨hc, hp, b, hrd, hb⟩ := hgood x (List.mem_cons_self _ _)
    have hdel : delivered x.2 = b := by simp [delivered, hrd]
    rw [appended_cons, hdel, List.length_append] at hfit
    obtain ⟨s1, hrun1, hp1, hl1, hb1, _⟩ :=
      fill_buffer_append w s x.1 x.2 b hc hp hrd hb (by omega) hw
    have hlen1 : s1.buffer.length = s.buffer.length := by
      rw [hb1]; simp only [List.length_append, List.length_take, List.length_drop]; omega
    obtain ⟨s2, hrun2, hp2, hl2, hb2, htake2⟩ :=
      ih s1 (fun y hy => hgood y (List.mem_cons_of_mem _ hy)) (by rw [hl1, hlen1]; omega)
        (by rw [hlen1]; exact hw)
    refine ⟨s2, ?_, by rw [hp2, hp1], ?_, by rw [hb2, hlen1], ?_⟩
    · show (fill_buffer w s x.1 x.2 >>= fun r =>
        fill_all w r.1 xs >>= fun r2 => pure (r2.1, r.2 && r2.2)) = _
      rw [hrun1]
      show (fill_all w s1 xs >>= fun r2 => pure (r2.1, true && r2.2)) = _
      rw [hrun2]; rfl
    · rw [hl2, hl1, appended_cons, hdel, List.length_append]; omega
    · rw [htake2, appended_cons, hdel, hl1, hb1, ← List.append_assoc]
      congr 1
      have h1 : (List.take s.recv_len s.buffer ++ b).length = s.recv_len + b.length := by
        rw [List.length_append, List.length_take]; omega
      rw [List.take_append_of_le_length (by omega), List.take_of_length_le (by omega)]

theorem reset_buffer_of_zero (s : Handler) (hp : s.recv_pos = 0) (hl : s.recv_len = 0) :
    reset_buffer s = s := by
  cases s
  simp only at hp hl
  subst hp hl
  rfl

/-- A full store is reset by `fill_buffer` before anything else happens. -/
theorem fill_buffer_full_eq (w : Nat) (s : Handler) (wait : Bool) (e : FillIn)
    (hfull : s.recv_len = s.buffer.length) :
    fill_buffer w s wait e = fill_buffer w (reset_buffer s) wait e := by
  have h1 : (if s.buffer.length = s.recv_len then reset_buffer s else s) = reset_buffer s := by
    rw [if_pos hfull.symm]
  have h2 : (if (reset_buffer s).buffer.length = (reset_buffer s).recv_len
      then reset_buffer (reset_buffer s) else reset_buffer s) = reset_buffer s := by
    split <;> rfl
  unfold fill_buffer
  simp only [h1, h2]

/-- One call of `fill_buffer` on an empty store (`_recv_pos = _recv_len = 0`),
with a file handle that stores at most `sizeof(_buffer)` bytes: the call
returns, it reports whether data arrived, and `_recv_len` is the number of
bytes that arrived. -/
theorem fill_buffer_at_zero (w : Nat) (s : Handler) (wait : Bool) (e : FillIn)
    (hp : s.recv_pos = 0) (hl : s.recv_len = 0)
    (hsrc : (delivered e).length ≤ s.buffer.length) :
    ∃ s1, fill_buffer w s wait e = .ok (s1, yields e) ∧ s1.recv_pos = 0 ∧
      s1.buffer.length = s.buffer.length ∧
      s1.polled = poll_timeout s wait e.now :: s.polled ∧
      s1.recv_len = if yields e then size_add w 0 (delivered e).length else 0 := by
  have h0 : (if s.buffer.length = s.recv_len then reset_buffer s else s) = s := by
    split
    · exact reset_buffer_of_zero s hp hl
    · rfl
  unfold fill_buffer
  simp only [h0]
  by_cases hcond : e.count > 0 ∧ e.pollin = true
  · rw [if_pos hcond]
    cases hrd : e.rd with
    | data bytes =>
      have hdel : delivered e = bytes := by simp [delivered, hrd]
      rw [hdel] at hsrc
      have hfit : s.recv_len + bytes.length ≤ s.buffer.length := by omega
      simp only [lock_buffer, lock_recv_len]
      rw [mem_write_ok hfit]
      by_cases hb : bytes.length > 0
      · have hy : yields e = true := by
          have : bytes ≠ [] := List.length_pos.mp hb
          simp [yields, hdel, hcond.1, hcond.2, this]
        simp only [bind, Except.bind, hb, if_true, pure, Except.pure, hy]
        refine ⟨_, rfl, by simp [hp], ?_, by simp, by simp [hl, hdel]⟩
        simp only [unlock_buffer, List.length_append, List.length_take, List.length_drop]
        omega
      · have hnil : bytes = [] := List.length_eq_zero.mp (by omega)
        have hy : yields e = false := by simp [yields, hdel, hnil]
        simp only [bind, Except.bind, hb, if_false, pure, Except.pure, hy]
        refine ⟨_, rfl, by simp [hp], ?_, by simp, by simp [hl]⟩
        simp [hnil]
    | fail =>
      have hy : yields e = false := by simp [yields, delivered, hrd]
      simp only [pure, Except.pure, hy]
      exact ⟨_, rfl, by simp [hp], by simp, by simp, by simp [hl]⟩
  · rw [if_neg hcond]
    have hy : yields e = false := by
      simp only [yields, Bool.and_eq_false_imp, Bool.and_eq_true, decide_eq_true_eq]
      intro h
      exact absurd h hcond
    simp only [pure, Except.pure, hy]
    exact ⟨_, rfl, hp, rfl, rfl, by simp [hl]⟩

theorem poll_timeout_no_wait (s : Handler) (now : Int) : poll_timeout s false now = 0 := rfl

/-- The loop of `flush`, started on an empty store: it ends at the first
fill attempt without data, with both offsets 0, and every poll it issued had
the timeout 0. -/
theorem flush_loop_spec (w : Nat) : ∀ (script : List FillIn) (s : Handler),
    s.recv_pos = 0 → s.recv_len = 0 →
    (∀ e ∈ script, (delivered e).length ≤ s.buffer.length) →
    (∃ e ∈ script, yields e = false) →
    ∃ s1, flush_loop w s script = .ok s1 ∧ s1.recv_pos = 0 ∧ s1.recv_len = 0 ∧
      s1.buffer.length = s.buffer.length ∧
      ∃ k, 0 < k ∧ s1.polled = List.replicate k 0 ++ s.polled := by
  intro script
  induction script with
  | nil =>
    intro s _ _ _ hstop
    obtain ⟨e, he, _⟩ := hstop
    exact absurd he (List.not_mem_nil e)
  | cons e es ih =>
    intro s hp hl hsrc hstop
    obtain ⟨s1, hrun, hp1, hb1, hpolled, hl1⟩ :=
      fill_buffer_at_zero w s false e hp hl (hsrc e (List.mem_cons_self _ _))
    rw [poll_timeout_no_wait] at hpolled
    have hloop : flush_loop w s (e :: es)
        = if yields e then flush_loop w (reset_buffer s1) es else .ok s1 := by
      show (fill_buffer w s false e >>= fun r =>
        if r.2 then flush_loop w (reset_buffer r.1) es else pure r.1) = _
      rw [hrun]; rfl
    by_cases hy : yields e = true
    · have hstop2 : ∃ e2 ∈ es, yields e2 = false := by
        obtain ⟨e2, he2, hy2⟩ := hstop
        rcases List.mem_cons.mp he2 with rfl | hmem
        · rw [hy] at hy2; exact absurd hy2 (by decide)
        · exact ⟨e2, hmem, hy2⟩
      obtain ⟨s2, hrun2, hp2, hl2, hb2, k, hk, hpolled2⟩ :=
        ih (reset_buffer s1) rfl rfl
          (fun e2 he2 => by
            show _ ≤ s1.buffer.length
            rw [hb1]; exact hsrc e2 (List.mem_cons_of_mem _ he2))
          hstop2
      refine ⟨s2, by rw [hloop, if_pos hy, hrun2], hp2, hl2, ?_, k + 1, by omega, ?_⟩
      · rw [hb2]; exact hb1
      · rw [hpolled2]
        show List.replicate k 0 ++ s1.polled = _
        rw [hpolled, List.replicate_succ', List.append_assoc]
        rfl
    · refine ⟨s1, by rw [hloop, if_neg hy], hp1, ?_, hb1, 1, by omega, ?_⟩
      · rw [hl1, if_neg hy]
      · rw [hpolled]; rfl

/-- The loop of `rewind_until(const uint8_t *, size_t)` when every window
below `bound` lies inside the buffer: it stops at the smallest offset in
`[i, bound)` at which the pattern lies, and yields `SIZE_MAX` when there is
none. -/
theorem scan_seq_spec (w : Nat) (buf find : List Byte) (bound : Nat)
    (hb : bound + find.length ≤ buf.length) :
    ∀ (fuel i : Nat), bound - i ≤ fuel →
      (∀ j, i ≤ j → j < bound → occurs_at buf find j →
        (∀ k, i ≤ k → k < j → ¬ occurs_at buf find k) →
        scan_seq w buf find bound fuel i = .ok j) ∧
      ((∀ j, i ≤ j → j < bound → ¬ occurs_at buf find j) →
        scan_seq w buf find bound fuel i = .ok (SIZE_MAX w)) := by
  intro fuel
  induction fuel with
  | zero =>
    intro i hf
    refine ⟨fun j hij hjb _ _ => absurd hjb (by omega), fun _ => rfl⟩
  | succ fuel ih =>
    intro i hf
    unfold scan_seq
    by_cases hlt : i < bound
    · rw [if_pos hlt, mem_read_ok (by omega)]
      show (∀ j, i ≤ j → j < bound → occurs_at buf find j →
          (∀ k, i ≤ k → k < j → ¬ occurs_at buf find k) →
          (if (buf.drop i).take find.length = find then Except.ok i
            else scan_seq w buf find bound fuel (i + 1)) = .ok j) ∧
        ((∀ j, i ≤ j → j < bound → ¬ occurs_at buf find j) →
          (if (buf.drop i).take find.length = find then Except.ok i
            else scan_seq w buf find bound fuel (i + 1)) = .ok (SIZE_MAX w))
      obtain ⟨ih1, ih2⟩ := ih (i + 1) (by omega)
      by_cases hwin : (buf.drop i).take find.length = find
      · have hocc : occurs_at buf find i := ⟨by omega, hwin⟩
        rw [if_pos hwin]
        constructor
        · intro j hij _ _ hmin
          by_cases hji : j = i
          · rw [hji]
          · exact absurd hocc (hmin i (le_refl i) (by omega))
        · intro hnone
          exact absurd hocc (hnone i (le_refl i) hlt)
      · have hnocc : ¬ occurs_at buf find i := fun h => hwin h.2
        rw [if_neg hwin]
        constructor
        · intro j hij hjb hocc hmin
          have hji : j ≠ i := fun h => hnocc (h ▸ hocc)
          exact ih1 j (by omega) hjb hocc (fun k hk hkj => hmin k (by omega) hkj)
        · intro hnone
          exact ih2 (fun j hj hjb => hnone j (by omega) hjb)
    · rw [if_neg hlt]
      refine ⟨fun j hij hjb _ _ => absurd hjb (by omega), fun _ => rfl⟩

/-- The value assigned to `_recv_pos` by `rewind_until(const uint8_t *, size_t)`
for a pattern no longer than the buffer: the smallest offset strictly below
`sizeof(_buffer) - len` at which the pattern lies, and `_recv_len` when the
pattern lies at none of these offsets. -/
theorem seq_position_spec (w : Nat) (s : Handler) (find : List Byte)
    (hlen : find.length ≤ s.buffer.length) (hw : s.buffer.length < 2 ^ w) :
    (∀ j, j < s.buffer.length - find.length → occurs_at s.buffer find j →
      (∀ k, k < j → ¬ occurs_at s.buffer find k) → seq_position w s find = .ok j) ∧
    ((∀ j, j < s.buffer.length - find.length → ¬ occurs_at s.buffer find j) →
      seq_position w s find = .ok s.recv_len) := by
  have hbound : size_sub w s.buffer.length find.length = s.buffer.length - find.length :=
    size_sub_of_le hlen hw
  obtain ⟨h1, h2⟩ := scan_seq_spec w s.buffer find (s.buffer.length - find.length)
    (by omega) (s.buffer.length - find.length) 0 (by omega)
  unfold seq_position
  simp only [hbound]
  constructor
  · intro j hj hocc hmin
    rw [h1 j (Nat.zero_le j) hj hocc (fun k _ hkj => hmin k hkj)]
    have hne : j ≠ SIZE_MAX w := by unfold SIZE_MAX; omega
    simp [bind, Except.bind, pure, Except.pure, hne]
  · intro hnone
    rw [h2 (fun j _ hj => hnone j hj)]
    simp [bind, Except.bind, pure, Except.pure]

/-! ## Further facts -/

/-- When the test in `rewind_buffer` fails, the call only passes through
`lock` and `unlock`. -/
theorem rewind_buffer_noop (s : Handler) (g : Guard)
    (h : ¬ (0 < s.recv_pos ∧ s.recv_pos ≤ s.recv_len)) :
    rewind_buffer s g = .ok (unlock (lock s g.now) g.readable g.token) := by
  unfold rewind_buffer
  simp [h, bind, Except.bind, pure, Except.pure]

/-- The two ways in which `rewind_buffer` returns: after a move, with
`_recv_pos = 0`; or without one, offsets and buffer as before. -/
theorem rewind_buffer_cases (s : Handler) (g : Guard) (s1 : Handler)
    (h : rewind_buffer s g = .ok s1) :
    (0 < s.recv_pos ∧ s.recv_pos ≤ s.recv_len ∧ s1.recv_pos = 0 ∧
      s1.recv_len = s.recv_len - s.recv_pos) ∨
    (¬ (0 < s.recv_pos ∧ s.recv_pos ≤ s.recv_len) ∧ s1.recv_pos = s.recv_pos ∧
      s1.recv_len = s.recv_len ∧ s1.buffer = s.buffer) := by
  by_cases hc : 0 < s.recv_pos ∧ s.recv_pos ≤ s.recv_len
  · left
    unfold rewind_buffer at h
    simp only [lock_recv_pos, lock_recv_len, lock_buffer, hc, and_self, if_true] at h
    cases hr : mem_read s.buffer s.recv_pos (s.recv_len - s.recv_pos) with
    | error f => rw [hr] at h; simp [bind, Except.bind] at h
    | ok moved =>
      rw [hr] at h
      cases hwr : mem_write s.buffer 0 moved with
      | error f => simp [bind, Except.bind, hwr] at h
      | ok buf =>
        simp only [bind, Except.bind, hwr, pure, Except.pure, Except.ok.injEq] at h
        subst h
        exact ⟨hc.1, hc.2, by simp, by simp⟩
  · right
    rw [rewind_buffer_noop s g hc] at h
    simp only [Except.ok.injEq] at h
    subst h
    exact ⟨hc, by simp, by simp, by simp⟩

/-- A fill attempt that finds room and gets no data, because the poll does
not report `POLLIN` or because the read fails or returns nothing, leaves
offsets and buffer as they were and returns false. -/
theorem fill_buffer_no_data (w : Nat) (s : Handler) (wait : Bool) (e : FillIn)
    (hlt : s.recv_len < s.buffer.length)
    (hno : ¬ (e.count > 0 ∧ e.pollin = true) ∨ e.rd = .fail ∨ e.rd = .data []) :
    ∃ s1, fill_buffer w s wait e = .ok (s1, false) ∧ s1.recv_pos = s.recv_pos ∧
      s1.recv_len = s.recv_len ∧ s1.buffer = s.buffer := by
  have hne : s.buffer.length ≠ s.recv_len := by omega
  unfold fill_buffer
  simp only [hne, if_false]
  by_cases hcond : e.count > 0 ∧ e.pollin = true
  · rw [if_pos hcond]
    rcases hno with h | h | h
    · exact absurd hcond h
    · simp only [h, pure, Except.pure]
      exact ⟨_, rfl, by simp, by simp, by simp⟩
    · have hfit : s.recv_len + ([] : List Byte).length ≤ s.buffer.length := by
        simp only [List.length_nil]; omega
      simp only [h, lock_buffer, lock_recv_len]
      rw [mem_write_ok hfit]
      simp only [bind, Except.bind, List.length_nil, gt_iff_lt, lt_self_iff_false, if_false,
        pure, Except.pure]
      exact ⟨_, rfl, by simp, by simp, by simp⟩
  · rw [if_neg hcond]
    exact ⟨_, rfl, rfl, rfl, rfl⟩

theorem mem_read_out_of_bounds {buf : List Byte} {off n : Nat} (h : buf.length < off + n) :
    mem_read buf off n = .error .out_of_bounds := by
  unfold mem_read
  rw [if_neg (by omega)]

/-- The loop of `rewind_until(const uint8_t *, size_t)` returns when every
window below `bound` lies inside the buffer. -/
theorem scan_seq_returns (w : Nat) (buf find : List Byte) (bound : Nat)
    (hb : bound + find.length ≤ buf.length) :
    ∀ (fuel i : Nat), ∃ p, scan_seq w buf find bound fuel i = .ok p := by
  intro fuel
  induction fuel with
  | zero => intro i; exact ⟨_, rfl⟩
  | succ fuel ih =>
    intro i
    unfold scan_seq
    by_cases hlt : i < bound
    · rw [if_pos hlt, mem_read_ok (by omega)]
      by_cases hwin : (buf.drop i).take find.length = find
      · exact ⟨i, by simp [bind, Except.bind, hwin]⟩
      · obtain ⟨p, hp⟩ := ih (i + 1)
        exact ⟨p, by simp [bind, Except.bind, hwin, hp]⟩
    · rw [if_neg hlt]
      exact ⟨_, rfl⟩

theorem size_sub_zero (w a : Nat) : size_sub w a 0 = a % 2 ^ w := by
  unfold size_sub
  rw [Nat.zero_mod, Nat.sub_zero, Nat.add_mod_right, Nat.mod_mod]

/-- The loop of `rewind_until(uint8_t)`, started at or below `len`, stops at
or below `len`. -/
theorem scan_byte_le (buf : List Byte) (t : Byte) (len : Nat) :
    ∀ (fuel i j : Nat), i ≤ len → scan_byte buf t len fuel i = .ok j → j ≤ len := by
  intro fuel
  induction fuel with
  | zero =>
    intro i j hi h
    simp only [scan_byte, Except.ok.injEq] at h
    omega
  | succ fuel ih =>
    intro i j hi h
    unfold scan_byte at h
    by_cases hlt : i < len
    · rw [if_pos hlt] at h
      cases hb : buf[i]? with
      | none => rw [hb] at h; cases h
      | some b =>
        rw [hb] at h
        by_cases hbt : b = t
        · simp only [hbt, if_true, Except.ok.injEq] at h
          omega
        · simp only [hbt, if_false] at h
          exact ih (i + 1) j (by omega) h
    · rw [if_neg hlt] at h
      simp only [Except.ok.injEq] at h
      omega

/-- A call of `rewind_buffer` that returns, made with `_recv_pos ≤ _recv_len`,
leaves `_recv_pos = 0`. -/
theorem rewind_buffer_ok_pos (s : Handler) (g : Guard) (s1 : Handler)
    (h : rewind_buffer s g = .ok s1) (hpl : s.recv_pos ≤ s.recv_len) : s1.recv_pos = 0 := by
  rcases rewind_buffer_cases s g s1 h with ⟨_, _, hp, _⟩ | ⟨hn, hp, _, _⟩
  · exact hp
  · rw [hp]; omega

/-- A call of `fill_buffer` that returns leaves `_recv_pos` at 0 when it was
0 before. -/
theorem fill_buffer_ok_pos (w : Nat) (s : Handler) (wait : Bool) (e : FillIn)
    (r : Handler × Bool) (h : fill_buffer w s wait e = .ok r) (hp : s.recv_pos = 0) :
    r.1.recv_pos = 0 := by
  have h0 : (if s.buffer.length = s.recv_len then reset_buffer s else s).recv_pos = 0 := by
    split
    · rfl
    · exact hp
  unfold fill_buffer at h
  generalize (if s.buffer.length = s.recv_len then reset_buffer s else s) = s0 at h h0
  by_cases hcond : e.count > 0 ∧ e.pollin = true
  · simp only [hcond, and_self, if_true] at h
    cases hrd : e.rd with
    | data bytes =>
      simp only [hrd, lock_buffer, lock_recv_len] at h
      cases hwr : mem_write s0.buffer s0.recv_len bytes with
      | error f => simp [hwr, bind, Except.bind] at h
      | ok buf =>
        simp only [hwr, bind, Except.bind, pure, Except.pure] at h
        by_cases hb : bytes.length > 0
        · simp only [hb, if_true, Except.ok.injEq] at h
          subst h
          simpa using h0
        · simp only [hb, if_false, Except.ok.injEq] at h
          subst h
          simpa using h0
    | fail =>
      simp only [hrd, pure, Except.pure, Except.ok.injEq] at h
      subst h
      simpa using h0
  · simp only [hcond, if_false, pure, Except.pure, Except.ok.injEq] at h
    subst h
    exact h0

/-- A call of `read_bytes` that returns leaves `_recv_pos` at 0 when it was 0
before. -/
theorem read_bytes_ok_pos (w : Nat) (s : Handler) (len : Nat) (g1 g2 : Guard)
    (r : Handler × List Byte × Nat) (h : read_bytes w s len g1 g2 = .ok r)
    (hp : s.recv_pos = 0) : r.1.recv_pos = 0 := by
  unfold read_bytes at h
  rw [hp, size_sub_zero] at h
  by_cases hdeg : len = 0 ∨
      (if len > s.recv_len % 2 ^ w then s.recv_len % 2 ^ w else len) = 0
  · simp only [hdeg, if_true, pure, Except.pure, Except.ok.injEq] at h
    subst h
    exact hp
  · simp only [hdeg, if_false, lock_buffer, lock_recv_pos] at h
    generalize hk : (if len > s.recv_len % 2 ^ w then s.recv_len % 2 ^ w else len) = k at h hdeg
    have hkl : k ≤ s.recv_len := by
      have := Nat.mod_le s.recv_len (2 ^ w)
      rw [← hk]; split <;> omega
    cases hr : mem_read s.buffer 0 k with
    | error f => simp [hp, hr, bind, Except.bind] at h
    | ok out =>
      simp only [hp, hr, bind, Except.bind, pure, Except.pure] at h
      split at h
      · cases h
      · rename_i s4 hrw
        simp only [Except.ok.injEq] at h
        subst h
        exact rewind_buffer_ok_pos _ g2 s4 hrw (by simpa using hkl)

/-- A call of `rewind_until(uint8_t)` that returns leaves `_recv_pos` at 0
when it was 0 before. -/
theorem rewind_until_ok_pos (s : Handler) (t : Byte) (g : Guard) (r : Handler × Nat)
    (h : rewind_until s t g = .ok r) (hp : s.recv_pos = 0) : r.1.recv_pos = 0 := by
  unfold rewind_until at h
  cases hs : scan_byte s.buffer t s.recv_len (s.recv_len - s.recv_pos) s.recv_pos with
  | error f => simp [hs, bind, Except.bind] at h
  | ok i =>
    have hi : i ≤ s.recv_len := scan_byte_le s.buffer t s.recv_len _ _ i (by omega) hs
    simp only [hs, bind, Except.bind] at h
    cases hrw : rewind_buffer { s with recv_pos := i } g with
    | error f => simp [hrw] at h
    | ok s2 =>
      simp only [hrw, pure, Except.pure, Except.ok.injEq] at h
      subst h
      exact rewind_buffer_ok_pos _ g s2 hrw hi

/-- The loop of `flush`, when it returns, leaves `_recv_pos` at 0 when it was
0 at its start. -/
theorem flush_loop_ok_pos (w : Nat) : ∀ (script : List FillIn) (s s1 : Handler),
    flush_loop w s script = .ok s1 → s.recv_pos = 0 → s1.recv_pos = 0 := by
  intro script
  induction script with
  | nil => intro s s1 h _; cases h
  | cons e es ih =>
    intro s s1 h hp
    unfold flush_loop at h
    cases hf : fill_buffer w s false e with
    | error f => simp [hf, bind, Except.bind] at h
    | ok r =>
      have hr := fill_buffer_ok_pos w s false e r hf hp
      simp only [hf, bind, Except.bind] at h
      cases hgot : r.2 with
      | true =>
        simp only [hgot, if_true] at h
        exact ih (reset_buffer r.1) s1 h rfl
      | false =>
        simp only [hgot, Bool.false_eq_true, if_false, pure, Except.pure,
          Except.ok.injEq] at h
        subst h
        exact hr

/-- One call other than `rewind_until(const uint8_t *, size_t)`, when it
returns, leaves `_recv_pos` at 0 when it was 0 before. -/
theorem step_ok_pos (w : Nat) (s s1 : Handler) (op : Op) (hfree : seek_free op = true)
    (h : step w s op = .ok s1) (hp : s.recv_pos = 0) : s1.recv_pos = 0 := by
  cases op with
  | fill_once wait e =>
    simp only [step] at h
    cases hf : fill_buffer w s wait e with
    | error f => simp [hf, Except.map] at h
    | ok r =>
      simp only [hf, Except.map, Except.ok.injEq] at h
      subst h
      exact fill_buffer_ok_pos w s wait e r hf hp
  | read_bytes len g1 g2 =>
    simp only [step] at h
    cases hf : read_bytes w s len g1 g2 with
    | error f => simp [hf, Except.map] at h
    | ok r =>
      simp only [hf, Except.map, Except.ok.injEq] at h
      subst h
      exact read_bytes_ok_pos w s len g1 g2 r hf hp
  | seek_to_byte b g =>
    simp only [step] at h
    cases hf : rewind_until s b g with
    | error f => simp [hf, Except.map] at h
    | ok r =>
      simp only [hf, Except.map, Except.ok.injEq] at h
      subst h
      exact rewind_until_ok_pos s b g r hf hp
  | seek_to_sequence find g => cases hfree
  | compact g =>
    simp only [step] at h
    exact rewind_buffer_ok_pos s g s1 h (by omega)
  | reset =>
    simp only [step, pure, Except.pure, Except.ok.injEq] at h
    subst h
    rfl
  | flush script =>
    simp only [step, flush] at h
    exact flush_loop_ok_pos w script (reset_buffer s) s1 h rfl

/-- A sequence of calls without `rewind_until(const uint8_t *, size_t)`,
when it returns, leaves `_recv_pos` at 0 when it was 0 before. -/
theorem run_ok_pos (w : Nat) : ∀ (ops : List Op) (s s1 : Handler),
    (∀ op ∈ ops, seek_free op = true) → run w s ops = .ok s1 → s.recv_pos = 0 →
    s1.recv_pos = 0 := by
  intro ops
  induction ops with
  | nil =>
    intro s s1 _ h hp
    simp only [run, pure, Except.pure, Except.ok.injEq] at h
    subst h
    exact hp
  | cons op ops ih =>
    intro s s1 hfree h hp
    unfold run at h
    cases hs : step w s op with
    | error f => simp [hs, bind, Except.bind] at h
    | ok s2 =>
      simp only [hs, bind, Except.bind] at h
      exact ih s2 s1 (fun o ho => hfree o (List.mem_cons_of_mem _ ho)) h
        (step_ok_pos w s s2 op (hfree op (List.mem_cons_self _ _)) hs hp)

/-- On a state with `_recv_pos = 0`, assigning the copied count to the cursor
and advancing the cursor by it give the same `read_bytes`. -/
theorem read_bytes_eq_advancing (w : Nat) (s : Handler) (len : Nat) (g1 g2 : Guard)
    (hp : s.recv_pos = 0) :
    read_bytes w s len g1 g2 = read_bytes_advancing w s len g1 g2 := by
  unfold read_bytes read_bytes_advancing
  rw [hp, size_sub_zero]
  by_cases hdeg : len = 0 ∨
      (if len > s.recv_len % 2 ^ w then s.recv_len % 2 ^ w else len) = 0
  · simp only [hdeg, if_true]
  · simp only [hdeg, if_false]
    have hk : (if len > s.recv_len % 2 ^ w then s.recv_len % 2 ^ w else len) < 2 ^ w := by
      have := Nat.mod_lt s.recv_len (Nat.two_pow_pos w)
      split <;> omega
    have hadd : size_add w (unlock (lock s g1.now) g1.readable g1.token).recv_pos
        (if len > s.recv_len % 2 ^ w then s.recv_len % 2 ^ w else len)
        = (if len > s.recv_len % 2 ^ w then s.recv_len % 2 ^ w else len) := by
      rw [unlock_recv_pos, lock_recv_pos, hp, size_add_of_lt (by omega), Nat.zero_add]
    rw [hadd]

theorem wrap64_of_in_range {x : Int} (h : in_int64 x) : wrap64 x = x := by
  unfold in_int64 at h
  unfold wrap64
  omega

/-- Where the time point `_start_time + _timeout` and the duration from `now`
to it both fit 64 bits, `poll_timeout` computes the poll budget of the
specification, and its value is not negative. -/
theorem poll_timeout_in_range (s : Handler) (wait : Bool) (now : Int)
    (hsum : in_int64 (s.start_time + s.timeout))
    (hdiff : in_int64 (s.start_time + s.timeout - now)) :
    poll_timeout s wait now = poll_budget_spec now s.start_time s.timeout wait ∧
    0 ≤ poll_timeout s wait now := by
  cases wait
  · simp [poll_timeout, poll_budget_spec]
  · unfold poll_timeout
    rw [wrap64_of_in_range hsum, wrap64_of_in_range hdiff]
    by_cases h1 : now ≥ s.start_time + s.timeout
    · have h1b : now - s.start_time ≥ s.timeout := by omega
      simp [poll_budget_spec, h1, h1b]
    · have h1b : ¬ now - s.start_time ≥ s.timeout := by omega
      by_cases h2 : s.start_time + s.timeout - now > INT_MAX
      · have hm : min (s.timeout - (now - s.start_time)) INT_MAX = INT_MAX :=
          min_eq_right (by omega)
        simp only [poll_budget_spec, Bool.true_eq_false, if_false, if_true, h1, h1b, h2, hm]
        exact ⟨trivial, by decide⟩
      · have h32 : wrap32 (s.start_time + s.timeout - now) = s.start_time + s.timeout - now := by
          unfold INT_MAX at h2
          unfold wrap32
          omega
        have hm : min (s.timeout - (now - s.start_time)) INT_MAX
            = s.timeout - (now - s.start_time) := min_eq_left (by omega)
        simp only [poll_budget_spec, Bool.true_eq_false, if_false, if_true, h1, h1b, h2, hm,
          h32]
        constructor <;> omega

/-! ## The claims -/

/-- C1, the code at the failing input: on a fresh store of four bytes, byte
`A` arrives (the file handle keeps its contract), is read, and the pattern
`[0]` is sought.  No access leaves the buffer, and the state reached has
`_recv_pos = 1` and `_recv_len = 0`, so `_recv_pos ≤ _recv_len` is broken. -/
theorem seek_to_sequence_breaks_invariant :
    source_ok 32 (init 4 0) (arrives [65]) ∧
    run 32 (init 4 0) consume_then_seek = .ok cursor_past_end ∧
    cursor_past_end.recv_pos = 1 ∧ cursor_past_end.recv_len = 0 ∧
    ¬ (cursor_past_end.recv_pos ≤ cursor_past_end.recv_len) :=
  ⟨by decide, rfl, rfl, rfl, by decide⟩

/-- C2 (round trip): from an empty store (`_recv_pos = _recv_len = 0`), after
any run of fill attempts that each get at least one byte and together deliver
`n < sizeof(_buffer)` bytes, every fill returns true, and a following
`read_bytes` with `len ≥ n` returns `n`, stores exactly the delivered bytes in
order, and leaves `available_bytes()` at 0. -/
theorem fill_then_read_round_trip (w : Nat) (s : Handler) (xs : List (Bool × FillIn))
    (len : Nat) (g1 g2 : Guard) (hp : s.recv_pos = 0) (hl : s.recv_len = 0)
    (hgood : ∀ x ∈ xs, x.2.count > 0 ∧ x.2.pollin = true ∧ ∃ b, x.2.rd = .data b ∧ b ≠ [])
    (hn : (appended xs).length < s.buffer.length) (hw : s.buffer.length < 2 ^ w)
    (hlen : (appended xs).length ≤ len) :
    ∃ s1, fill_all w s xs = .ok (s1, true) ∧
      ∃ s2, read_bytes w s1 len g1 g2 = .ok (s2, appended xs, (appended xs).length) ∧
        available_bytes w s2 = 0 := by
  obtain ⟨s1, hrun, hp1, hl1, hb1, htake⟩ :=
    fill_all_append w xs s hgood (by omega) hw
  rw [hl, Nat.zero_add] at hl1
  rw [hp] at hp1
  rw [hl, List.take_zero, List.nil_append] at htake
  refine ⟨s1, hrun, ?_⟩
  by_cases h0 : (appended xs).length = 0
  · have hnil : appended xs = [] := List.length_eq_zero.mp h0
    refine ⟨s1, ?_, ?_⟩
    · unfold read_bytes
      have hmax : size_sub w s1.recv_len s1.recv_pos = 0 := by
        rw [size_sub_of_le (by omega) (by omega)]; omega
      simp [hmax, hnil, pure, Except.pure]
    · unfold available_bytes
      rw [size_sub_of_le (by omega) (by omega)]; omega
  · obtain ⟨s2, hread, hp2, hl2, _, _⟩ :=
      read_bytes_spec w s1 len g1 g2 (by omega) (by omega) (by omega) (by omega)
    have hmin : min len (s1.recv_len - s1.recv_pos) = (appended xs).length := by omega
    refine ⟨s2, ?_, ?_⟩
    · rw [hread, hmin, unread_of_pos_zero s1 hp1, htake, List.take_of_length_le (le_refl _)]
    · unfold available_bytes
      rw [size_sub_of_le (by omega) (by omega)]; omega

/-- C2 at a concrete input: `[1, 2]` then `[3]` arrive in a store of six
bytes, and a read of up to five bytes gets `[1, 2, 3]`. -/
theorem fill_then_read_round_trip_witness :
    ∃ s1, fill_all 32 (init 6 0) [(true, arrives [1, 2]), (false, arrives [3])] = .ok (s1, true) ∧
      ∃ s2, read_bytes 32 s1 5 quiet quiet = .ok (s2, [1, 2, 3], 3) ∧
        available_bytes 32 s2 = 0 :=
  fill_then_read_round_trip 32 (init 6 0) [(true, arrives [1, 2]), (false, arrives [3])] 5
    quiet quiet rfl rfl
    (by
      intro x hx
      simp only [List.mem_cons, List.mem_singleton, List.not_mem_nil, or_false] at hx
      rcases hx with rfl | rfl
      · exact ⟨by decide, rfl, [1, 2], rfl, by simp⟩
      · exact ⟨by decide, rfl, [3], rfl, by simp⟩)
    (by decide) (by decide) (by decide)

/-- C3, the code at the failing input: the state with `[P, Q, R]` in the
buffer, `_recv_pos = 1` and `_recv_len = 3` is reached from a fresh store, and
satisfies `_recv_pos ≤ _recv_len ≤ sizeof(_buffer)`.  There `read_bytes` of
length 1 returns 1 and stores `Q`, but the unread bytes afterwards are again
`[Q, R]`, not `[R]`, and `available_bytes()` is still 2, not 1: the cursor was
set to 1, not advanced by 1. -/
theorem read_bytes_assigns_cursor :
    run 32 (init 4 0) (consume_then_seek ++ [.fill_once true (arrives [80, 81, 82])])
      = .ok cursor_inside ∧
    (cursor_inside.recv_pos ≤ cursor_inside.recv_len ∧
      cursor_inside.recv_len ≤ cursor_inside.buffer.length) ∧
    unread cursor_inside = [81, 82] ∧ available_bytes 32 cursor_inside = 2 ∧
    ∃ s1, read_bytes 32 cursor_inside 1 quiet quiet = .ok (s1, [81], 1) ∧
      unread s1 = [81, 82] ∧ available_bytes 32 s1 = 2 ∧
      unread s1 ≠ (unread cursor_inside).drop 1 ∧
      available_bytes 32 s1 ≠ available_bytes 32 cursor_inside - 1 :=
  ⟨rfl, ⟨by decide, by decide⟩, rfl, rfl,
    { cursor_inside with buffer := [81, 82, 82, 0], recv_pos := 0, recv_len := 2 },
    rfl, rfl, rfl, by decide, by decide⟩

/-- C4: on a state with `_recv_pos ≤ _recv_len ≤ sizeof(_buffer)`,
`rewind_until(uint8_t)` returns, and its return value is `available_bytes()`
after the call.  When the byte first occurs at index `j` of the unread bytes,
the return value is the old `available_bytes()` minus `j`, the unread bytes
afterwards are the old ones from index `j` on, and a following `read_bytes` of
length 1 stores that byte and returns 1.  When the byte does not occur in the
unread bytes, the call returns 0 and leaves `available_bytes()` at 0. -/
theorem rewind_until_first_occurrence (w : Nat) (s : Handler) (t : Byte) (g g1 g2 : Guard)
    (hpl : s.recv_pos ≤ s.recv_len) (hlc : s.recv_len ≤ s.buffer.length)
    (hw : s.buffer.length < 2 ^ w) :
    ∃ s1 r, rewind_until s t g = .ok (s1, r) ∧ r = available_bytes w s1 ∧
      (∀ j, (unread s)[j]? = some t → (∀ k, k < j → (unread s)[k]? ≠ some t) →
        r = available_bytes w s - j ∧ unread s1 = (unread s).drop j ∧
        ∃ s2, read_bytes w s1 1 g1 g2 = .ok (s2, [t], 1)) ∧
      (t ∉ unread s → r = 0 ∧ available_bytes w s1 = 0) := by
  obtain ⟨s1, hrun, hp1, hl1, hb1, hun⟩ := rewind_until_spec s t g hpl hlc
  have hul := unread_length s hpl hlc
  have hav1 : available_bytes w s1 = s1.recv_len := by
    unfold available_bytes
    rw [hp1, size_sub_of_le (Nat.zero_le _) (by omega), Nat.sub_zero]
  have hav : available_bytes w s = (unread s).length := by
    unfold available_bytes
    rw [size_sub_of_le hpl (by omega), hul]
  refine ⟨s1, s1.recv_len, hrun, hav1.symm, ?_, ?_⟩
  · intro j hj hfirst
    have hd := indexOf_of_first t (unread s) j hj hfirst
    have hjlt : j < (unread s).length := by
      by_contra hge
      rw [List.getElem?_eq_none (by omega)] at hj
      exact absurd hj (by simp)
    rw [hd] at hl1 hun
    refine ⟨by rw [hl1, hav], hun, ?_⟩
    obtain ⟨s2, hread, _⟩ := read_bytes_spec w s1 1 g1 g2 (by omega) (by omega) (by omega)
      (by omega)
    refine ⟨s2, ?_⟩
    have hmin : min 1 (s1.recv_len - s1.recv_pos) = 1 := by omega
    rw [hread, hmin, hun]
    congr 3
    rw [List.drop_eq_getElem_cons hjlt, List.take_succ_cons, List.take_zero]
    congr 1
    have := List.getElem?_eq_getElem hjlt
    rw [hj] at this
    exact (Option.some.inj this).symm
  · intro hnot
    have hd : List.indexOf t (unread s) = (unread s).length := List.indexOf_eq_length.mpr hnot
    rw [hd, Nat.sub_self] at hl1
    exact ⟨hl1, by rw [hav1, hl1]⟩

/-- C4, the example of the specification: with `[A, B, C, D]` staged,
seeking `C` returns 2 and the next read of one byte stores `C`. -/
theorem rewind_until_first_occurrence_witness :
    (staged_ABCD.recv_pos ≤ staged_ABCD.recv_len ∧
      staged_ABCD.recv_len ≤ staged_ABCD.buffer.length ∧
      staged_ABCD.buffer.length < 2 ^ 32) ∧
    (∃ s1 r, rewind_until staged_ABCD 67 quiet = .ok (s1, r) ∧ r = available_bytes 32 s1 ∧
      (∀ j, (unread staged_ABCD)[j]? = some 67 →
        (∀ k, k < j → (unread staged_ABCD)[k]? ≠ some 67) →
        r = available_bytes 32 staged_ABCD - j ∧ unread s1 = (unread staged_ABCD).drop j ∧
        ∃ s2, read_bytes 32 s1 1 quiet quiet = .ok (s2, [67], 1)) ∧
      ((67 : Byte) ∉ unread staged_ABCD → r = 0 ∧ available_bytes 32 s1 = 0)) ∧
    (rewind_until staged_ABCD 67 quiet).map (·.2) = .ok 2 :=
  ⟨⟨by decide, by decide, by decide⟩,
    rewind_until_first_occurrence 32 staged_ABCD 67 quiet quiet quiet
      (by decide) (by decide) (by decide), rfl⟩

/-- C5, the code at the failing input: in the state `consumed_A`
(`_recv_pos = _recv_len = 0`, buffer `[A, 0, 0, 0]`, reached from a fresh
store when `A` arrives and is read) the pattern `[0]` of
length 1 is found at offset 1, behind `_recv_len`.  The call returns 0, while
`available_bytes()` right after the call is `2 ^ 32 - 1`. -/
theorem seek_to_sequence_return_differs :
    run 32 (init 4 0) [.fill_once true (arrives [65]), .read_bytes 1 quiet quiet]
      = .ok consumed_A ∧
    (consumed_A.recv_pos ≤ consumed_A.recv_len ∧
      consumed_A.recv_len ≤ consumed_A.buffer.length) ∧
    rewind_until_seq 32 consumed_A [0] quiet = .ok (cursor_past_end, 0) ∧
    available_bytes 32 cursor_past_end = 4294967295 ∧
    0 ≠ available_bytes 32 cursor_past_end :=
  ⟨rfl, ⟨by decide, by decide⟩, rfl, rfl, by decide⟩

/-- C6, the code at the failing input: with `[A, B, C]` staged in a store of
eight bytes that still holds `[X, Y]` at offset 4 from an earlier delivery,
the pattern `[X, Y]` does not occur in the staged bytes, yet the call returns
3 and leaves `_recv_pos = 4`, `_recv_len = 3`, so `available_bytes()` is
`2 ^ 32 - 1` instead of 0. -/
theorem seek_to_sequence_finds_leftover :
    run 32 (init 8 0) leftover_ops = .ok staged_ABC_leftover ∧
    staged staged_ABC_leftover = [65, 66, 67] ∧
    (∀ i, i < 8 → ¬ occurs_at (staged staged_ABC_leftover) [88, 89] i) ∧
    rewind_until_seq 32 staged_ABC_leftover [88, 89] quiet
      = .ok ({ staged_ABC_leftover with recv_pos := 4 }, 3) ∧
    available_bytes 32 { staged_ABC_leftover with recv_pos := 4 } = 4294967295 :=
  ⟨rfl, rfl, by decide, rfl, rfl⟩

/-- C7, the code at the failing input: in a store of four bytes holding
`[7, 7, A, B]` the pattern `[A, B]` occurs at offset 2, the last offset with
`i + len ≤ sizeof(_buffer)`, and at no smaller offset.  The scan stops before
that offset: it reports no match, and `_recv_pos` is assigned `_recv_len = 4`. -/
theorem seek_to_sequence_misses_last_offset :
    run 32 (init 4 0) [.fill_once true (arrives [7, 7, 65, 66])] = .ok ends_in_AB ∧
    occurs_at ends_in_AB.buffer [65, 66] 2 ∧
    (∀ i, i < 2 → ¬ occurs_at ends_in_AB.buffer [65, 66] i) ∧
    scan_seq 32 ends_in_AB.buffer [65, 66] 2 2 0 = .ok (SIZE_MAX 32) ∧
    seq_position 32 ends_in_AB [65, 66] = .ok 4 ∧
    seq_position 32 ends_in_AB [65, 66] ≠ .ok 2 :=
  ⟨rfl, by decide, by decide, rfl, rfl, fun h => by cases h⟩

/-- C8, counterexample: it is not true that every call of `fill_buffer` on a
full store leaves `available_bytes()` at 0, even with a file handle that
keeps its contract.  On the full two byte store a fill attempt that gets one
byte leaves one byte available. -/
theorem fill_when_full_not_always_empty :
    ¬ ∀ (s : Handler) (wait : Bool) (e : FillIn) (s1 : Handler) (got : Bool),
      s.recv_len = s.buffer.length → source_ok 32 s e →
      fill_buffer 32 s wait e = .ok (s1, got) → available_bytes 32 s1 = 0 := by
  intro h
  have h1 := h full_two true (arrives [7])
    { full_two with buffer := [7, 2], recv_len := 1, polled := [10] } true rfl
    (by decide) rfl
  exact absurd h1 (by decide)

/-- C8, amended: a call of `fill_buffer` on a full store
(`_recv_len = sizeof(_buffer)`) behaves as the same call on the reset store,
so both offsets are 0 before the poll and the read.  With a file handle that
stores at most the `sizeof(_buffer)` bytes it is then asked for, the call
returns without an access outside `_buffer`, `_recv_pos` stays 0, and
`available_bytes()` afterwards is the number of bytes this call appended:
0 when no data arrived, the size of the delivery otherwise. -/
theorem fill_when_full_resets_first (w : Nat) (s : Handler) (wait : Bool) (e : FillIn)
    (hfull : s.recv_len = s.buffer.length) (hw : s.buffer.length < 2 ^ w)
    (hsrc : source_ok w s e) :
    fill_buffer w s wait e = fill_buffer w (reset_buffer s) wait e ∧
    ∃ s1, fill_buffer w s wait e = .ok (s1, yields e) ∧ s1.recv_pos = 0 ∧
      s1.buffer.length = s.buffer.length ∧
      available_bytes w s1 = (if yields e then (delivered e).length else 0) ∧
      (yields e = false → available_bytes w s1 = 0) := by
  have heq := fill_buffer_full_eq w s wait e hfull
  have hreq : (delivered e).length ≤ s.buffer.length := by
    unfold source_ok fill_request at hsrc
    rw [if_pos hfull.symm] at hsrc
    have : size_sub w (reset_buffer s).buffer.length (reset_buffer s).recv_len
        = s.buffer.length := size_sub_of_le (Nat.zero_le _) hw
    rw [this] at hsrc
    exact hsrc
  obtain ⟨s1, hrun, hp1, hb1, _, hl1⟩ :=
    fill_buffer_at_zero w (reset_buffer s) wait e rfl rfl hreq
  have hb : s1.buffer.length = s.buffer.length := hb1
  have hav : available_bytes w s1 = (if yields e then (delivered e).length else 0) := by
    unfold available_bytes
    rw [hp1, hl1]
    split
    · rw [size_add_of_lt (by omega), Nat.zero_add, size_sub_of_le (Nat.zero_le _) (by omega),
        Nat.sub_zero]
    · exact size_sub_of_le (Nat.zero_le _) (Nat.two_pow_pos w)
  refine ⟨heq, s1, by rw [heq, hrun], hp1, hb, hav, ?_⟩
  intro hy
  rw [hav, hy]
  rfl

/-- C8 at a concrete input: the full two byte store, a poll that times out. -/
theorem fill_when_full_resets_first_witness :
    (full_two.recv_len = full_two.buffer.length ∧ full_two.buffer.length < 2 ^ 32 ∧
      source_ok 32 full_two silence) ∧
    (fill_buffer 32 full_two true silence = fill_buffer 32 (reset_buffer full_two) true silence ∧
    ∃ s1, fill_buffer 32 full_two true silence = .ok (s1, yields silence) ∧ s1.recv_pos = 0 ∧
      s1.buffer.length = full_two.buffer.length ∧
      available_bytes 32 s1 = (if yields silence then (delivered silence).length else 0) ∧
      (yields silence = false → available_bytes 32 s1 = 0)) :=
  ⟨⟨rfl, by decide, by decide⟩,
    fill_when_full_resets_first 32 full_two true silence rfl (by decide) (by decide)⟩

/-- C9, counterexample: the value of `poll_timeout` can exceed `_timeout`,
also when all times fit 64 bits and the clock has not gone back behind
`_start_time`: with the timeout -1 ms attached, the value 0 is larger. -/
theorem poll_timeout_not_always_below_timeout :
    ¬ ∀ (s : Handler) (wait : Bool) (now : Int),
      in_int64 s.start_time → in_int64 s.timeout → in_int64 now → s.start_time ≤ now →
      poll_timeout s wait now ≤ s.timeout := by
  intro h
  exact absurd (h (attach (init 2 0) false (-1)) false 0 (by decide) (by decide) (by decide)
    (by decide)) (by decide)

/-- C9, amended: for times that fit 64 bits, when `_timeout` is not negative
and the clock has not gone back behind `_start_time`, the value of
`poll_timeout` is at most `_timeout`, also where `_start_time + _timeout`
wraps around; and the value is 0 once `now ≥ _start_time + _timeout`, as long
as that sum is not below the 64 bit range. -/
theorem poll_timeout_bounded (s : Handler) (wait : Bool) (now : Int)
    (hs : in_int64 s.start_time) (ht : in_int64 s.timeout) (hn : in_int64 now) :
    (0 ≤ s.timeout → s.start_time ≤ now → poll_timeout s wait now ≤ s.timeout) ∧
    (-2 ^ 63 ≤ s.start_time + s.timeout → now ≥ s.start_time + s.timeout →
      poll_timeout s wait now = 0) := by
  unfold in_int64 at hs ht hn
  cases wait
  · exact ⟨fun h0 _ => h0, fun _ _ => rfl⟩
  · unfold poll_timeout
    simp only [if_true]
    constructor
    · intro h0 hmono
      by_cases hover : s.start_time + s.timeout ≤ 2 ^ 63 - 1
      · have hsum : wrap64 (s.start_time + s.timeout) = s.start_time + s.timeout :=
          wrap64_of_in_range ⟨by omega, hover⟩
        rw [hsum]
        by_cases h1 : now ≥ s.start_time + s.timeout
        · rw [if_pos h1]; exact h0
        · rw [if_neg h1]
          have hdiff : wrap64 (s.start_time + s.timeout - now)
              = s.start_time + s.timeout - now := wrap64_of_in_range ⟨by omega, by omega⟩
          rw [hdiff]
          by_cases h2 : s.start_time + s.timeout - now > INT_MAX
          · rw [if_pos h2]; unfold INT_MAX at h2 ⊢; omega
          · rw [if_neg h2]
            unfold INT_MAX at h2
            unfold wrap32
            omega
      · have hsum : wrap64 (s.start_time + s.timeout) = s.start_time + s.timeout - 2 ^ 64 := by
          unfold wrap64; omega
        rw [hsum, if_pos (by omega)]
        exact h0
    · intro hlow hnow
      have hsum : wrap64 (s.start_time + s.timeout) = s.start_time + s.timeout :=
        wrap64_of_in_range ⟨hlow, by omega⟩
      rw [hsum, if_pos hnow]

/-- C9 at concrete inputs: start 5, timeout 10; at clock 8 the value is 7,
at clock 15 it is 0. -/
theorem poll_timeout_bounded_witness :
    poll_timeout (init 2 5) true 8 ≤ (init 2 5).timeout ∧ poll_timeout (init 2 5) true 15 = 0 :=
  ⟨(poll_timeout_bounded (init 2 5) true 8 (by decide) (by decide) (by decide)).1
      (by decide) (by decide),
    (poll_timeout_bounded (init 2 5) true 15 (by decide) (by decide) (by decide)).2
      (by decide) (by decide)⟩

/-- C10: for every starting state and every list of answers to the fill
attempts in which the file handle keeps its contract (at most the
`sizeof(_buffer)` bytes asked for are stored) and some attempt gets no data,
`flush` returns with `_recv_pos = 0` and `_recv_len = 0`, so
`available_bytes()` is 0, and every poll it issued was given the timeout 0. -/
theorem flush_drains (w : Nat) (s : Handler) (script : List FillIn)
    (hsrc : ∀ e ∈ script, (delivered e).length ≤ s.buffer.length)
    (hstop : ∃ e ∈ script, yields e = false) :
    ∃ s1, flush w s script = .ok s1 ∧ s1.recv_pos = 0 ∧ s1.recv_len = 0 ∧
      available_bytes w s1 = 0 ∧
      ∃ k, 0 < k ∧ s1.polled = List.replicate k 0 ++ s.polled := by
  obtain ⟨s1, hrun, hp1, hl1, _, k, hk, hpolled⟩ :=
    flush_loop_spec w script (reset_buffer s) rfl rfl hsrc hstop
  refine ⟨s1, hrun, hp1, hl1, ?_, k, hk, hpolled⟩
  unfold available_bytes
  rw [hp1, hl1]
  exact size_sub_of_le (le_refl 0) (Nat.two_pow_pos w)

/-- C10 at a concrete input: the full two byte store; one byte arrives, then
two, then a poll times out.  Three polls are issued, each with timeout 0. -/
theorem flush_drains_witness :
    ∃ s1, flush 32 full_two [arrives [1], arrives [2, 3], silence] = .ok s1 ∧
      s1.recv_pos = 0 ∧ s1.recv_len = 0 ∧ available_bytes 32 s1 = 0 ∧
      ∃ k, 0 < k ∧ s1.polled = List.replicate k 0 ++ full_two.polled :=
  flush_drains 32 full_two [arrives [1], arrives [2, 3], silence] (by decide)
    ⟨silence, by simp, rfl⟩

/-- C11: in every state, a call of `read_bytes` with `len = 0`, or with
`available_bytes()` equal to 0, returns 0, stores nothing, and leaves the
whole state as it was: buffer, `_recv_pos`, `_recv_len`, `_start_time`,
`_event_id`, and the queue (nothing is scheduled), whatever the clock and the
file handle would have answered. -/
theorem read_bytes_degenerate (w : Nat) (s : Handler) (len : Nat) (g1 g2 : Guard)
    (h : len = 0 ∨ available_bytes w s = 0) :
    read_bytes w s len g1 g2 = .ok (s, [], 0) := by
  unfold read_bytes
  unfold available_bytes at h
  rcases h with h | h
  · simp [h, pure, Except.pure]
  · simp [h, pure, Except.pure]

/-- C11 at concrete inputs: a request of length 0 on a store with four unread
bytes, and a request of length 5 on an empty store, both while the file
handle is readable. -/
theorem read_bytes_degenerate_witness :
    read_bytes 32 staged_ABCD 0 busy busy = .ok (staged_ABCD, [], 0) ∧
    read_bytes 32 (init 4 0) 5 busy busy = .ok (init 4 0, [], 0) :=
  ⟨read_bytes_degenerate 32 staged_ABCD 0 busy busy (Or.inl rfl),
    read_bytes_degenerate 32 (init 4 0) 5 busy busy (Or.inr rfl)⟩

/-- C12: starting with `_event_id = 0`, any run of one or more calls of
`event` with nothing run in between, the queue returning a non-zero id to the
first call, has the effect of the first call alone: exactly one `read` task
is added to the queue, `_event_id` holds its id, and every later call changes
nothing. -/
theorem event_coalesces (s : Handler) (t : Int) (ts : List Int)
    (h0 : s.event_id = 0) (ht : t ≠ 0) :
    events s (t :: ts) = event s t ∧
    (events s (t :: ts)).queued = s.queued + 1 ∧
    (events s (t :: ts)).event_id = t := by
  have hfirst : event s t = queue_call s t := by
    unfold event; rw [if_pos h0]
  have hid : (event s t).event_id = t := by rw [hfirst]; rfl
  have hq : (event s t).queued = s.queued + 1 := by
    rw [hfirst]; simp [queue_call, ht]
  have hrest : ∀ (us : List Int) (r : Handler), r.event_id ≠ 0 → events r us = r := by
    intro us
    induction us with
    | nil => intro r _; rfl
    | cons u us ih =>
      intro r hr
      have hu : event r u = r := by unfold event; rw [if_neg hr]
      show events (event r u) us = r
      rw [hu]; exact ih r hr
  have hall : events s (t :: ts) = event s t :=
    hrest ts (event s t) (by rw [hid]; exact ht)
  rw [hall]
  exact ⟨rfl, hq, hid⟩

/-- C12 at a concrete input: three signals on a fresh store, the queue
handing out the ids 5, 6 and 7, leave one task in the queue. -/
theorem event_coalesces_witness :
    events (init 4 0) [5, 6, 7] = event (init 4 0) 5 ∧
    (events (init 4 0) [5, 6, 7]).queued = (init 4 0).queued + 1 ∧
    (events (init 4 0) [5, 6, 7]).event_id = 5 :=
  event_coalesces (init 4 0) 5 [6, 7] rfl (by decide)

/-- C13, the code at the failing input: on a fresh store `event` enqueues one
`read` task (id 1).  Before that task runs the consumer calls
`rewind_until(uint8_t)` while the file handle is readable; `unlock` enqueues a
second `read` task (id 2) without looking at `_event_id`.  Two tasks are then
outstanding. -/
theorem unlock_schedules_again :
    (event (init 4 0) 1).queued = 1 ∧ (event (init 4 0) 1).event_id = 1 ∧
    ∃ s1 r, rewind_until (event (init 4 0) 1) 0 busy = .ok (s1, r) ∧
      s1.queued = 2 ∧ s1.event_id = 2 ∧ ¬ (s1.queued ≤ 1) :=
  ⟨rfl, rfl, { init 4 0 with start_time := 7, event_id := 2, queued := 2 }, 0, rfl, rfl, rfl,
    by decide⟩

/-- C14, the code at the failing input: with the timeout
`milliseconds::max()` attached, `_start_time = 5` and the clock at 8, all
times fit 64 bits and 3 ms have elapsed, so the budget of the specification
is `INT_MAX`.  In the code the sum `_start_time + _timeout` wraps to a
negative count, the test `now >= _start_time + _timeout` holds, and
`poll_timeout` returns 0. -/
theorem poll_timeout_overflows :
    (in_int64 long_wait.start_time ∧ in_int64 long_wait.timeout ∧ in_int64 8 ∧
      long_wait.start_time ≤ 8) ∧
    wrap64 (long_wait.start_time + long_wait.timeout) = -9223372036854775804 ∧
    poll_timeout long_wait true 8 = 0 ∧
    poll_budget_spec 8 long_wait.start_time long_wait.timeout true = INT_MAX ∧
    poll_timeout long_wait true 8 ≠
      poll_budget_spec 8 long_wait.start_time long_wait.timeout true :=
  ⟨⟨by decide, by decide, by decide, by decide⟩, by decide, by decide, by decide, by decide⟩

/-- C15: on a state with `0 < _recv_pos ≤ _recv_len ≤ sizeof(_buffer)`,
`rewind_buffer` returns with `_recv_pos = 0`, `_recv_len` lowered by the old
`_recv_pos`, and byte `j` of the buffer equal to the old byte `_recv_pos + j`
for every `j` below the new `_recv_len`; the unread bytes and
`available_bytes()` are as before.  On a state with `_recv_pos = 0` it
returns with offsets and buffer as before. -/
theorem rewind_buffer_compacts (w : Nat) (s : Handler) (g : Guard) :
    (0 < s.recv_pos → s.recv_pos ≤ s.recv_len → s.recv_len ≤ s.buffer.length →
      s.buffer.length < 2 ^ w →
      ∃ s1, rewind_buffer s g = .ok s1 ∧ s1.recv_pos = 0 ∧
        s1.recv_len = s.recv_len - s.recv_pos ∧
        s1.buffer.length = s.buffer.length ∧
        (∀ j, j < s.recv_len - s.recv_pos → s1.buffer[j]? = s.buffer[s.recv_pos + j]?) ∧
        unread s1 = unread s ∧ available_bytes w s1 = available_bytes w s) ∧
    (s.recv_pos = 0 →
      ∃ s1, rewind_buffer s g = .ok s1 ∧ s1.recv_pos = s.recv_pos ∧
        s1.recv_len = s.recv_len ∧ s1.buffer = s.buffer) := by
  constructor
  · intro _ hpl hlc hw
    obtain ⟨s1, hrun, hp1, hl1, hb1, htake, _⟩ := rewind_buffer_spec s g hpl hlc
    have hun : unread s1 = unread s := by
      rw [unread_of_pos_zero s1 hp1, hl1, htake]
    refine ⟨s1, hrun, hp1, hl1, hb1, ?_, hun, ?_⟩
    · intro j hj
      have h1 : s1.buffer[j]? = (s1.buffer.take (s.recv_len - s.recv_pos))[j]? :=
        (List.getElem?_take_of_lt hj).symm
      rw [h1, htake]
      unfold unread
      rw [List.getElem?_take_of_lt hj, List.getElem?_drop]
    · unfold available_bytes
      rw [hp1, hl1, size_sub_of_le (Nat.zero_le _) (by omega), size_sub_of_le hpl (by omega),
        Nat.sub_zero]
  · intro hp
    have hc : ¬ (0 < s.recv_pos ∧ s.recv_pos ≤ s.recv_len) := by omega
    exact ⟨_, rewind_buffer_noop s g hc, by simp, by simp, by simp⟩

/-- C15 at concrete inputs: the store with `[A, B]` consumed and `[C, D]`
unread is compacted; the store with the cursor at 0 is left as it is. -/
theorem rewind_buffer_compacts_witness :
    (∃ s1, rewind_buffer uncompacted quiet = .ok s1 ∧ s1.recv_pos = 0 ∧
        s1.recv_len = uncompacted.recv_len - uncompacted.recv_pos ∧
        s1.buffer.length = uncompacted.buffer.length ∧
        (∀ j, j < uncompacted.recv_len - uncompacted.recv_pos →
          s1.buffer[j]? = uncompacted.buffer[uncompacted.recv_pos + j]?) ∧
        unread s1 = unread uncompacted ∧
        available_bytes 32 s1 = available_bytes 32 uncompacted) ∧
    (∃ s1, rewind_buffer staged_ABCD quiet = .ok s1 ∧ s1.recv_pos = staged_ABCD.recv_pos ∧
        s1.recv_len = staged_ABCD.recv_len ∧ s1.buffer = staged_ABCD.buffer) :=
  ⟨(rewind_buffer_compacts 32 uncompacted quiet).1 (by decide) (by decide) (by decide)
      (by decide),
    (rewind_buffer_compacts 32 staged_ABCD quiet).2 rfl⟩

/-- C16: `rewind_buffer` returns on every state with
`_recv_len ≤ sizeof(_buffer)` and on every state in which it has nothing to
move (`_recv_pos = 0` or `_recv_pos > _recv_len`); and on every state on which
it returns, a second call right after it returns too and leaves buffer,
`_recv_pos` and `_recv_len` as the first call left them. -/
theorem rewind_buffer_idempotent (s : Handler) (g1 g2 : Guard) :
    (s.recv_len ≤ s.buffer.length ∨ ¬ (0 < s.recv_pos ∧ s.recv_pos ≤ s.recv_len) →
      ∃ s1, rewind_buffer s g1 = .ok s1) ∧
    (∀ s1, rewind_buffer s g1 = .ok s1 →
      ∃ s2, rewind_buffer s1 g2 = .ok s2 ∧ s2.buffer = s1.buffer ∧
        s2.recv_pos = s1.recv_pos ∧ s2.recv_len = s1.recv_len) := by
  constructor
  · intro hret
    rcases hret with hlc | hc
    · exact ⟨_, rewind_buffer_eq s g1 hlc⟩
    · exact ⟨_, rewind_buffer_noop s g1 hc⟩
  · intro s1 h
    have hc : ¬ (0 < s1.recv_pos ∧ s1.recv_pos ≤ s1.recv_len) := by
      rcases rewind_buffer_cases s g1 s1 h with ⟨_, _, hp, _⟩ | ⟨hn, hp, hl, _⟩
      · omega
      · rw [hp, hl]; exact hn
    exact ⟨_, rewind_buffer_noop s1 g2 hc, by simp, by simp, by simp⟩

/-- C16 at concrete inputs: the uncompacted store (a move happens in the
first call) and the store whose cursor lies behind `_recv_len`. -/
theorem rewind_buffer_idempotent_witness :
    (∃ s1, rewind_buffer uncompacted quiet = .ok s1) ∧
    (∃ s1 s2, rewind_buffer uncompacted quiet = .ok s1 ∧ rewind_buffer s1 busy = .ok s2 ∧
      s2.buffer = s1.buffer ∧ s2.recv_pos = s1.recv_pos ∧ s2.recv_len = s1.recv_len) ∧
    (∃ s1 s2, rewind_buffer cursor_past_end quiet = .ok s1 ∧
      rewind_buffer s1 busy = .ok s2 ∧
      s2.buffer = s1.buffer ∧ s2.recv_pos = s1.recv_pos ∧ s2.recv_len = s1.recv_len) :=
  ⟨(rewind_buffer_idempotent uncompacted quiet busy).1 (Or.inl (by decide)),
    ⟨_, (rewind_buffer_idempotent uncompacted quiet busy).2 _ rfl |>.choose, rfl,
      (rewind_buffer_idempotent uncompacted quiet busy).2 _ rfl |>.choose_spec⟩,
    ⟨_, (rewind_buffer_idempotent cursor_past_end quiet busy).2 _ rfl |>.choose, rfl,
      (rewind_buffer_idempotent cursor_past_end quiet busy).2 _ rfl |>.choose_spec⟩⟩

/-- C17: on a state with `_recv_len < sizeof(_buffer)`: when the poll reports
`POLLIN` and the read returns `n` bytes with `1 ≤ n ≤ sizeof(_buffer) -
_recv_len`, `fill_buffer` returns true, `_recv_len` grows by `n`, the bytes
lie at `_buffer[old _recv_len ..)` in the order delivered, and `_recv_pos` and
`_buffer[0 .. old _recv_len)` are as before; when the poll reports nothing or
the read fails or returns nothing, `fill_buffer` returns false and
`_recv_pos`, `_recv_len` and the buffer are as before. -/
theorem fill_buffer_frame (w : Nat) (s : Handler) (wait : Bool) (e : FillIn)
    (hlt : s.recv_len < s.buffer.length) (hw : s.buffer.length < 2 ^ w) :
    (∀ bytes, e.count > 0 → e.pollin = true → e.rd = .data bytes → 1 ≤ bytes.length →
      bytes.length ≤ s.buffer.length - s.recv_len →
      ∃ s1, fill_buffer w s wait e = .ok (s1, true) ∧
        s1.recv_len = s.recv_len + bytes.length ∧
        (s1.buffer.drop s.recv_len).take bytes.length = bytes ∧
        s1.recv_pos = s.recv_pos ∧
        s1.buffer.take s.recv_len = s.buffer.take s.recv_len ∧
        s1.buffer.length = s.buffer.length) ∧
    ((¬ (e.count > 0 ∧ e.pollin = true) ∨ e.rd = .fail ∨ e.rd = .data []) →
      ∃ s1, fill_buffer w s wait e = .ok (s1, false) ∧ s1.recv_pos = s.recv_pos ∧
        s1.recv_len = s.recv_len ∧ s1.buffer = s.buffer) := by
  constructor
  · intro bytes hc hp hrd hn hfit
    have hb : bytes ≠ [] := List.length_pos.mp (by omega)
    obtain ⟨s1, hrun, hp1, hl1, hb1, _⟩ :=
      fill_buffer_append w s wait e bytes hc hp hrd hb (by omega) hw
    have hA : (List.take s.recv_len s.buffer).length = s.recv_len := by
      rw [List.length_take]; omega
    refine ⟨s1, hrun, hl1, ?_, hp1, ?_, ?_⟩
    · rw [hb1, List.append_assoc, List.drop_append_of_le_length (by omega),
        List.drop_of_length_le (by omega), List.nil_append,
        List.take_append_of_le_length (le_refl _), List.take_of_length_le (le_refl _)]
    · rw [hb1, List.append_assoc, List.take_append_of_le_length (by omega),
        List.take_of_length_le (by omega)]
    · rw [hb1]
      simp only [List.length_append, List.length_take, List.length_drop]
      omega
  · exact fill_buffer_no_data w s wait e hlt

/-- C17 at concrete inputs: `[E, F]` arrives behind the staged `[A, B, C, D]`;
and a poll that times out changes nothing. -/
theorem fill_buffer_frame_witness :
    (∃ s1, fill_buffer 32 staged_ABCD true (arrives [69, 70]) = .ok (s1, true) ∧
        s1.recv_len = staged_ABCD.recv_len + [(69 : Byte), 70].length ∧
        (s1.buffer.drop staged_ABCD.recv_len).take [(69 : Byte), 70].length = [69, 70] ∧
        s1.recv_pos = staged_ABCD.recv_pos ∧
        s1.buffer.take staged_ABCD.recv_len = staged_ABCD.buffer.take staged_ABCD.recv_len ∧
        s1.buffer.length = staged_ABCD.buffer.length) ∧
    (∃ s1, fill_buffer 32 staged_ABCD true silence = .ok (s1, false) ∧
        s1.recv_pos = staged_ABCD.recv_pos ∧ s1.recv_len = staged_ABCD.recv_len ∧
        s1.buffer = staged_ABCD.buffer) :=
  ⟨(fill_buffer_frame 32 staged_ABCD true (arrives [69, 70]) (by decide) (by decide)).1
      [69, 70] (by decide) rfl rfl (by decide) (by decide),
    (fill_buffer_frame 32 staged_ABCD true silence (by decide) (by decide)).2
      (Or.inl (by decide))⟩

/-- C19: in every state reached from a state with `_recv_pos = 0` (the state
after construction is one) by calls of `fill_buffer`, `read_bytes`,
`rewind_until(uint8_t)`, `flush`, `rewind_buffer` and `reset_buffer` that
have returned, `_recv_pos` is 0; so in these states `read_bytes` as written,
with `_recv_pos = to_read`, and `read_bytes` with `_recv_pos += to_read` do
the same. -/
theorem cursor_zero_without_seek_to_sequence (w : Nat) (s0 s : Handler) (ops : List Op)
    (h0 : s0.recv_pos = 0) (hfree : ∀ op ∈ ops, seek_free op = true)
    (hrun : run w s0 ops = .ok s) :
    s.recv_pos = 0 ∧
    ∀ (len : Nat) (g1 g2 : Guard),
      read_bytes w s len g1 g2 = read_bytes_advancing w s len g1 g2 := by
  have hp := run_ok_pos w ops s0 s hfree hrun h0
  exact ⟨hp, fun len g1 g2 => read_bytes_eq_advancing w s len g1 g2 hp⟩

/-- C19 at a concrete input: the six calls of `seek_free_ops` on a fresh
store of four bytes return, and the cursor is 0 afterwards. -/
theorem cursor_zero_without_seek_to_sequence_witness :
    ∃ s, run 32 (init 4 0) seek_free_ops = .ok s ∧ s.recv_pos = 0 ∧
      ∀ (len : Nat) (g1 g2 : Guard),
        read_bytes 32 s len g1 g2 = read_bytes_advancing 32 s len g1 g2 :=
  ⟨{ init 4 0 with buffer := [67, 67, 67, 0], event_id := 2, queued := 2, polled := [0, 10] },
    rfl,
    cursor_zero_without_seek_to_sequence 32 (init 4 0) _ seek_free_ops rfl (by decide) rfl⟩

/-- C20: with the loop bound `sizeof(_buffer) - len` taken modulo `2 ^ w`,
the scan of `rewind_until(const uint8_t *, size_t)` runs without an access
outside `_buffer` exactly when `len ≤ sizeof(_buffer)`.  For such a pattern
every window `[i, i + len)` with `i` below the bound lies inside the buffer.
For a longer pattern the bound wraps to `sizeof(_buffer) + 2 ^ w - len`, which
is positive, so the window at offset 0 is examined, and it already reaches
past the end of the buffer. -/
theorem seq_scan_in_bounds_iff (w : Nat) (s : Handler) (find : List Byte)
    (hw : s.buffer.length < 2 ^ w) (hf : find.length < 2 ^ w) :
    ((∃ p, seq_position w s find = .ok p) ↔ find.length ≤ s.buffer.length) ∧
    (find.length ≤ s.buffer.length →
      ∀ i, i < size_sub w s.buffer.length find.length → i + find.length ≤ s.buffer.length) ∧
    (s.buffer.length < find.length →
      size_sub w s.buffer.length find.length = s.buffer.length + 2 ^ w - find.length ∧
      0 < size_sub w s.buffer.length find.length ∧
      ¬ (0 + find.length ≤ s.buffer.length) ∧
      mem_read s.buffer 0 find.length = .error .out_of_bounds ∧
      seq_position w s find = .error .out_of_bounds) := by
  have hshort : find.length ≤ s.buffer.length → ∃ p, seq_position w s find = .ok p := by
    intro hle
    have hbound : size_sub w s.buffer.length find.length = s.buffer.length - find.length :=
      size_sub_of_le hle hw
    obtain ⟨p, hp⟩ := scan_seq_returns w s.buffer find (s.buffer.length - find.length)
      (by omega) (s.buffer.length - find.length) 0
    unfold seq_position
    simp only [hbound]
    rw [hp]
    exact ⟨_, rfl⟩
  have hlong : s.buffer.length < find.length →
      size_sub w s.buffer.length find.length = s.buffer.length + 2 ^ w - find.length ∧
      0 < size_sub w s.buffer.length find.length ∧
      ¬ (0 + find.length ≤ s.buffer.length) ∧
      mem_read s.buffer 0 find.length = .error .out_of_bounds ∧
      seq_position w s find = .error .out_of_bounds := by
    intro hgt
    have hbound := size_sub_of_lt hgt hf
    have hpos : 0 < size_sub w s.buffer.length find.length := by rw [hbound]; omega
    have hread : mem_read s.buffer 0 find.length = .error .out_of_bounds :=
      mem_read_out_of_bounds (by omega)
    refine ⟨hbound, hpos, by omega, hread, ?_⟩
    unfold seq_position
    obtain ⟨b, hb⟩ : ∃ b, size_sub w s.buffer.length find.length = b + 1 :=
      ⟨size_sub w s.buffer.length find.length - 1, by omega⟩
    simp only [hb]
    unfold scan_seq
    rw [if_pos (by omega), hread]
    rfl
  refine ⟨⟨?_, hshort⟩, ?_, hlong⟩
  · intro ⟨p, hp⟩
    by_contra hgt
    rw [(hlong (by omega)).2.2.2.2] at hp
    cases hp
  · intro hle i hi
    rw [size_sub_of_le hle hw] at hi
    omega

/-- C20 at concrete inputs: in a store of four bytes a pattern of two bytes
is scanned inside the buffer, and a pattern of five bytes is not: the bound
wraps to `2 ^ 32 - 1`. -/
theorem seq_scan_in_bounds_iff_witness :
    (∃ p, seq_position 32 ends_in_AB [65, 66] = .ok p) ∧
    (∀ i, i < size_sub 32 ends_in_AB.buffer.length [(65 : Byte), 66].length →
      i + [(65 : Byte), 66].length ≤ ends_in_AB.buffer.length) ∧
    (size_sub 32 ends_in_AB.buffer.length [(1 : Byte), 2, 3, 4, 5].length
        = ends_in_AB.buffer.length + 2 ^ 32 - [(1 : Byte), 2, 3, 4, 5].length ∧
      0 < size_sub 32 ends_in_AB.buffer.length [(1 : Byte), 2, 3, 4, 5].length ∧
      ¬ (0 + [(1 : Byte), 2, 3, 4, 5].length ≤ ends_in_AB.buffer.length) ∧
      mem_read ends_in_AB.buffer 0 [(1 : Byte), 2, 3, 4, 5].length = .error .out_of_bounds ∧
      seq_position 32 ends_in_AB [1, 2, 3, 4, 5] = .error .out_of_bounds) :=
  ⟨(seq_scan_in_bounds_iff 32 ends_in_AB [65, 66] (by decide) (by decide)).1.mpr (by decide),
    (seq_scan_in_bounds_iff 32 ends_in_AB [65, 66] (by decide) (by decide)).2.1 (by decide),
    (seq_scan_in_bounds_iff 32 ends_in_AB [1, 2, 3, 4, 5] (by decide) (by decide)).2.2
      (by decide)⟩

end SerialBuffer
